import Mathlib

/-!
Verification development for the skill-match engine
(`apps/api/src/services/job_matching.py`, `tfidf_matching.py`,
`skill_alignment_service.py`, `match_scheduler.py`, and
`apps/api/src/utils/skill_filters.py`).

The Python sources are embedded shallowly:

* Python strings are Lean `String`s; the character-level helpers
  (lower-casing, trimming, substring search and replacement) are defined
  on `List Char` so that witnesses evaluate in the kernel.
* Python floats are embedded as exact numbers: `ℚ` where the code only
  adds, multiplies, divides and compares, and `ℝ` where a square root is
  involved (the cosine similarity).
* Python dicts are embedded as association lists with Python's update
  semantics (`dset` replaces in place, inserts at the end); dict/set
  iteration feeds only order-insensitive accumulators (sums, maxima,
  counts), which are embedded as folds over the association list or as
  `Finset` sums.
* Database reads are inputs: each embedded service function takes the
  rows the Python code would fetch as explicit arguments.  Database
  writes are modelled as explicit state passing on a list of rows, with
  a transaction that either commits in full or rolls back in full.
-/

/-! ### Character-level string helpers (Python `str` operations) -/

/-- Python `str.lower()` followed by `str.strip()` on the character list. -/
def pyLowerStrip (s : String) : List Char :=
  (((s.toList.map Char.toLower).dropWhile Char.isWhitespace).reverse.dropWhile
    Char.isWhitespace).reverse

/-- Python substring test `pat in s` on character lists. -/
def containsSub (pat : List Char) : List Char → Bool
  | [] => pat.isEmpty
  | c :: rest => pat.isPrefixOf (c :: rest) || containsSub pat rest

/-- Worker for `replaceList`, structurally recursive on a fuel argument
(one unit of fuel per consumed character) so that it evaluates inside the
kernel. -/
def replaceFuel (pat rep : List Char) : ℕ → List Char → List Char
  | 0, l => l
  | _ + 1, [] => []
  | f + 1, c :: rest =>
    if !pat.isEmpty && pat.isPrefixOf (c :: rest) then
      rep ++ replaceFuel pat rep f (rest.drop (pat.length - 1))
    else
      c :: replaceFuel pat rep f rest

/-- Python `str.replace(pat, rep)`: replace every (non-overlapping,
left-to-right) occurrence of `pat` by `rep`.  An empty pattern leaves the
string unchanged (the source never replaces an empty pattern). -/
def replaceList (pat rep l : List Char) : List Char :=
  replaceFuel pat rep l.length l

/-- Python `str.split()` word count: split on whitespace, drop empties. -/
def pyWords (l : List Char) : List (List Char) :=
  (List.splitOnP Char.isWhitespace l).filter (· ≠ [])

/-- Python `str.lower()` as a kernel-evaluable `String` operation. -/
def pyLower (s : String) : String :=
  ⟨s.toList.map Char.toLower⟩

/-! ### `utils/skill_filters.py` -/

/-- `skill_filters.py`: `meaningless_skills`. -/
def meaninglessSkills : List String :=
  ["los", "com", "act", "inc", "ltd", "llc", "corp", "co", "org", "www",
   "http", "https"]

/-- `skill_filters.py`: `partial_phrases_and_common_words`. -/
def partialPhrasesAndCommonWords : List String :=
  ["adding", "using", "working", "developing", "creating", "building",
   "making", "managing", "leading", "supporting", "helping", "solving",
   "planning", "organizing", "coordinating", "monitoring", "tracking",
   "reporting", "writing", "reading", "speaking", "listening", "thinking",
   "learning", "teaching", "training", "studying", "researching",
   "analyzing", "testing", "reviewing", "evaluating", "assessing",
   "improving", "updating", "maintaining", "session", "sessions",
   "meeting", "meetings", "conference", "workshop", "locks", "lock",
   "key", "keys", "door", "doors", "window", "windows", "the", "and",
   "or", "but", "with", "for", "from", "about", "into", "through",
   "during", "before", "after", "above", "below", "between", "among",
   "across", "all", "some", "many", "few", "more", "most", "less",
   "much", "very", "too", "so", "just", "only", "also", "even", "still",
   "already", "yet", "now", "then"]

/-- `skill_filters.py`: `invalid_terms` (job-posting metadata). -/
def invalidTerms : List String :=
  ["job description", "job", "description", "position", "role",
   "opportunity", "candidate", "resume", "apply", "hiring", "employment",
   "work", "company", "team", "department", "requirements",
   "qualifications", "responsibilities", "benefits", "salary", "location",
   "remote", "onsite", "full-time", "part-time", "contract", "temporary",
   "entry level", "senior", "junior", "manager", "director",
   "schedule job", "job posting", "job board", "career", "schedule",
   "posting", "board", "opening", "vacancy"]

/-- `skill_filters.py`: `medical_conditions`. -/
def medicalConditions : List String :=
  ["cancer", "diabetes", "heart disease", "stroke", "alzheimer",
   "dementia", "arthritis", "asthma", "pneumonia", "bronchitis",
   "infection", "virus", "bacteria", "disease", "illness", "syndrome",
   "disorder", "condition", "symptom", "treatment", "therapy",
   "medication", "drug", "medicine", "surgery", "operation", "procedure",
   "diagnosis", "prognosis", "breast cancer", "lung cancer",
   "skin cancer", "prostate cancer", "bladder cancer", "liver cancer",
   "kidney cancer", "brain cancer"]

/-- `skill_filters.py`: `problematic_patterns`. -/
def problematicPatterns : List String :=
  ["mathematics computer", "support browsers", "support developed",
   "computers mathematics", "browsers support"]

/-- `skill_filters.py`: `valid_support_skills`. -/
def validSupportSkills : List String :=
  ["support vector machines", "support engineering",
   "support documentation", "support systems", "support services",
   "support operations"]

/-- `skill_filters.py`: `generic_noise_skills`. -/
def genericNoiseSkills : List String :=
  ["innovation", "creativity", "san", "communication", "teamwork",
   "problem solving", "leadership", "time management", "organization",
   "attention to detail", "multitasking", "flexibility", "adaptability",
   "customer service", "sales", "operations", "planning", "finance",
   "teaching", "training", "education", "learning", "development",
   "research", "analysis", "evaluation", "assessment", "review",
   "support", "assistance", "help", "service", "quality", "improvement",
   "management", "administration", "coordination", "supervision",
   "monitoring", "tracking", "reporting", "documentation", "compliance",
   "policy", "procedure", "process", "workflow", "standard", "guideline",
   "requirement", "specification", "criteria", "objective", "goal",
   "strategy", "plan", "approach", "method", "technique", "tool",
   "resource", "material", "equipment", "facility", "environment",
   "culture", "value", "principle", "ethic", "integrity", "honesty"]

/-- `skill_filters.py`: `standalone_gerunds`. -/
def standaloneGerunds : List String :=
  ["adding", "using", "working", "developing", "creating", "building",
   "making", "managing", "leading", "supporting", "helping", "solving",
   "planning", "organizing", "coordinating", "monitoring", "tracking",
   "reporting", "writing", "reading", "speaking", "listening", "thinking",
   "learning", "teaching", "training", "studying", "researching",
   "analyzing", "testing"]

/-- Membership of a lowered/stripped character list in a fixed string set. -/
def memStrSet (l : List Char) (set : List String) : Bool :=
  set.any (fun s => s.toList == l)

/-- `skill_filters.is_valid_skill`, clause for clause. -/
def is_valid_skill (skillName : String) : Bool :=
  let sl := pyLowerStrip skillName
  if sl.length ≤ 2 then false
  else if memStrSet sl meaninglessSkills then false
  else if memStrSet sl invalidTerms then false
  else if memStrSet sl partialPhrasesAndCommonWords then false
  else if memStrSet sl medicalConditions then false
  else if memStrSet sl problematicPatterns then false
  else if ("support ".toList.isPrefixOf sl && (pyWords sl).length == 2)
          && !(memStrSet sl validSupportSkills) then false
  else if memStrSet sl genericNoiseSkills then false
  else if memStrSet sl standaloneGerunds then false
  else true

/-- `skill_filters.py`: the `substitutions` table of
`normalize_skill_name`, in the source's (insertion) order. -/
def normalizeSubstitutions : List (String × String) :=
  [("javascript", "js"), ("typescript", "ts"), ("reactjs", "react"),
   ("react js", "react"), ("nodejs", "node.js"), ("node js", "node.js"),
   ("restful apis", "restful api"), ("api development", "api"),
   ("database design", "database"), ("sql server", "sql"),
   ("mysql", "sql"), ("postgresql", "sql"), ("postgres", "sql"),
   ("software development", "software engineering"),
   ("web development", "web dev"), ("frontend", "front-end"),
   ("backend", "back-end"), ("fullstack", "full-stack"),
   ("full stack", "full-stack")]

/-- `skill_filters.normalize_skill_name`: lower-case, strip, then apply
each substitution (replacing all occurrences) in table order. -/
def normalize_skill_name (skillName : String) : String :=
  ⟨normalizeSubstitutions.foldl
    (fun n p =>
      if containsSub p.1.toList n then replaceList p.1.toList p.2.toList n
      else n)
    (pyLowerStrip skillName)⟩

/-- `skill_filters.py`: `technical_keywords`. -/
def technicalKeywords : List String :=
  ["python", "java", "javascript", "js", "typescript", "ts", "c++", "c#",
   "php", "ruby", "go", "rust", "scala", "kotlin", "react", "angular",
   "vue", "node.js", "django", "flask", "spring", "express", "laravel",
   "sql", "mysql", "postgresql", "mongodb", "redis", "elasticsearch",
   "database", "docker", "kubernetes", "git", "jenkins", "aws", "azure",
   "gcp", "linux", "unix", "api", "restful", "graphql", "microservices",
   "cloud", "blockchain", "ai", "machine learning", "ml",
   "software engineering", "computer science", "algorithm",
   "data structure", "testing", "debugging"]

/-- `skill_filters.is_technical_skill`: some technical keyword occurs as a
substring of the lowered/stripped name. -/
def is_technical_skill (skillName : String) : Bool :=
  let sl := pyLowerStrip skillName
  technicalKeywords.any (fun k => containsSub k.toList sl)

/-! ### Python dict operations (association lists, insertion-ordered) -/

/-- Python `d.get(k)` / `k in d`: first (and, for dict-built lists, only)
binding of `k`. -/
def dget? {κ ν : Type} [DecidableEq κ] : List (κ × ν) → κ → Option ν
  | [], _ => none
  | p :: rest, k => if p.1 = k then some p.2 else dget? rest k

/-- Python `d[k] = v`: replace the binding in place if the key is present,
append it otherwise. -/
def dset {κ ν : Type} [DecidableEq κ] : List (κ × ν) → κ → ν → List (κ × ν)
  | [], k, v => [(k, v)]
  | p :: rest, k, v => if p.1 = k then (k, v) :: rest else p :: dset rest k v

/-- Python `d.get(k, 0.0)`. -/
def dgetD {κ : Type} [DecidableEq κ] (d : List (κ × ℚ)) (k : κ) : ℚ :=
  (dget? d k).getD 0

/-- Python `x or default` on a nullable float: `None` and `0.0` are falsy. -/
def pyOrQ (v : Option ℚ) (dflt : ℚ) : ℚ :=
  match v with
  | none => dflt
  | some x => if x = 0 then dflt else x

/-! ### `services/job_matching.py`: normalization of raw skill rows -/

/-- `JobMatchingService._get_user_skills`, one row
`(skill_name, proficiency_level)`: skip invalid names, normalize, boost
technical skills (raw-name predicate) by 1.2 capped at 1.0, and keep the
maximum proficiency on collision of normalized names. -/
def userSkillStep (d : List (String × ℚ)) (row : String × ℚ) :
    List (String × ℚ) :=
  if !(is_valid_skill row.1) then d
  else
    let n := normalize_skill_name row.1
    let p := if is_technical_skill row.1 then min 1 (row.2 * (12/10)) else row.2
    match dget? d n with
    | some old => dset d n (max old p)
    | none => dset d n p

/-- `JobMatchingService._get_user_skills` over the user's skill rows. -/
def _get_user_skills (rows : List (String × ℚ)) : List (String × ℚ) :=
  rows.foldl userSkillStep []

/-- `JobMatchingService._get_jobs_with_skills`, one job-skill row
`(skill_name, importance)` (importance nullable, `or 1.0`): boost
technical skills (raw-name predicate) by 1.3 capped at 2.0, keep the
maximum importance on collision of normalized names. -/
def jobSkillStep (d : List (String × ℚ)) (row : String × Option ℚ) :
    List (String × ℚ) :=
  if !(is_valid_skill row.1) then d
  else
    let n := normalize_skill_name row.1
    let imp0 := pyOrQ row.2 1
    let imp := if is_technical_skill row.1 then min 2 (imp0 * (13/10)) else imp0
    match dget? d n with
    | some old => dset d n (max old imp)
    | none => dset d n imp

/-- The filtered/normalized skill map of one job. -/
def jobFilteredSkills (rows : List (String × Option ℚ)) : List (String × ℚ) :=
  rows.foldl jobSkillStep []

/-- A job together with its normalized skill map (display metadata such as
title/company is pass-through in the source and omitted here). -/
structure JobWithSkills where
  id : ℕ
  skills : List (String × ℚ)

/-- `JobMatchingService._get_jobs_with_skills`: normalize each active
job's skill rows and keep only jobs with at least 2 valid skills. -/
def _get_jobs_with_skills (jobs : List (ℕ × List (String × Option ℚ))) :
    List JobWithSkills :=
  jobs.filterMap (fun j =>
    let fs := jobFilteredSkills j.2
    if 2 ≤ fs.length then some ⟨j.1, fs⟩ else none)

/-! ### `services/job_matching.py`: similarity scorer -/

/-- The key set of a skill map (`set(d.keys())`). -/
def mapKeys (d : List (String × ℚ)) : Finset String :=
  (d.map Prod.fst).toFinset

/-- Jaccard similarity: `len(inter)/len(union) if union else 0.0`. -/
def jaccardQ (u j : List (String × ℚ)) : ℚ :=
  let inter := mapKeys u ∩ mapKeys j
  let un := mapKeys u ∪ mapKeys j
  if un = ∅ then 0 else (inter.card : ℚ) / (un.card : ℚ)

/-- Cosine similarity of the two dense weight vectors over the union of
skill ids (the iteration order of the source's `sorted(union)` does not
affect the three inner products).  A zero-magnitude vector yields 0, as
`sklearn` (and the source's NaN guard) does. -/
noncomputable def cosineSimR (u j : List (String × ℚ)) : ℝ :=
  let un := mapKeys u ∪ mapKeys j
  let dot : ℝ := ((∑ s ∈ un, dgetD u s * dgetD j s : ℚ) : ℝ)
  let nu : ℝ := Real.sqrt ((∑ s ∈ un, (dgetD u s) ^ 2 : ℚ) : ℝ)
  let nv : ℝ := Real.sqrt ((∑ s ∈ un, (dgetD j s) ^ 2 : ℚ) : ℝ)
  if nu = 0 ∨ nv = 0 then 0 else dot / (nu * nv)

/-- The four scores returned by `_calculate_similarity`. -/
structure SimilarityScores where
  overall : ℝ
  jaccard : ℝ
  cosine : ℝ
  weighted : ℝ

/-- One step of the weighted-similarity loop of `_calculate_similarity`:
accumulate `(weighted_score, total_weight, technical_bonus)`. -/
def weightedStep (u : List (String × ℚ)) (a : ℚ × ℚ × ℚ) (p : String × ℚ) :
    ℚ × ℚ × ℚ :=
  let imp := p.2
  let prof := dgetD u p.1
  (a.1 + prof * imp, a.2.1 + imp,
   a.2.2 + if 0 < prof ∧ is_technical_skill p.1 then prof * imp * (1/2) else 0)

/-- `JobMatchingService._calculate_similarity`. -/
noncomputable def _calculate_similarity (u j : List (String × ℚ)) :
    SimilarityScores :=
  let un := mapKeys u ∪ mapKeys j
  let jac : ℚ := jaccardQ u j
  if un = ∅ then ⟨0, 0, 0, 0⟩
  else
    let cos := cosineSimR u j
    let acc := j.foldl (weightedStep u) (0, 0, 0)
    let wsim : ℚ := if 0 < acc.2.1 then acc.1 / acc.2.1 else 0
    let wsim : ℚ :=
      if 0 < acc.2.1 then min 1 (wsim + acc.2.2 / acc.2.1) else wsim
    ⟨(jac : ℝ) * (2/10) + cos * (3/10) + (wsim : ℝ) * (5/10),
     (jac : ℝ), cos, (wsim : ℝ)⟩

/-! ### `services/job_matching.py`: gap analyzer -/

/-- The record returned by `_analyze_skill_gaps`.  The matching/missing
lists are returned in sorted order (the source materializes a Python set
in unspecified order; only membership and length are ever consumed). -/
structure GapAnalysis where
  matchingSkills : List String
  missingSkills : List String
  coverage : ℚ
  totalRequired : ℕ
  totalMatching : ℕ
  totalMissing : ℕ

/-- `JobMatchingService._analyze_skill_gaps`. -/
def _analyze_skill_gaps (u j : List (String × ℚ)) : GapAnalysis :=
  let ui := mapKeys u
  let ji := mapKeys j
  let matching := (ui ∩ ji).sort (· ≤ ·)
  let missing := (ji \ ui).sort (· ≤ ·)
  let coverage : ℚ := if ji = ∅ then 0 else (matching.length : ℚ) / (ji.card : ℚ)
  ⟨matching, missing, coverage, ji.card, matching.length, missing.length⟩

/-! ### `services/job_matching.py`: match ranker and pipeline -/

/-- One candidate match of `match_user_to_jobs` (display metadata
omitted). -/
structure MatchRec where
  jobId : ℕ
  similarityScore : ℝ
  jaccardScore : ℝ
  cosineScore : ℝ
  weightedScore : ℝ
  skillCoverage : ℝ
  matchingSkills : List String
  missingSkills : List String
  totalJobSkills : ℕ
  totalUserSkills : ℕ

/-- The type of the ranking key: the lexicographic order on
`(matching_count, similarity_score, total_job_skills, -total_user_skills)`
— exactly Python's tuple comparison. -/
abbrev RankKey : Type := Lex (ℕ × Lex (ℝ × Lex (ℕ × ℤ)))

/-- `sort_key` of `match_user_to_jobs` / `get_job_matches`. -/
def sortKey (m : MatchRec) : RankKey :=
  toLex (m.matchingSkills.length,
    toLex (m.similarityScore,
      toLex (m.totalJobSkills, -(m.totalUserSkills : ℤ))))

/-- `matches.sort(key=sort_key, reverse=True)`: a stable sort placing
larger keys first. -/
noncomputable def sortMatches (l : List MatchRec) : List MatchRec :=
  l.mergeSort (fun a b => decide (sortKey b ≤ sortKey a))

/-- `JobMatchingService.match_user_to_jobs`: normalize the user rows and
the job corpus, score every job, drop candidates with fewer than 2
matching skills, sort by the ranking key (descending) and truncate. -/
noncomputable def match_user_to_jobs (userRows : List (String × ℚ))
    (jobs : List (ℕ × List (String × Option ℚ))) (limit : ℕ) :
    List MatchRec :=
  let us := _get_user_skills userRows
  if us.isEmpty then []
  else
    let jws := _get_jobs_with_skills jobs
    if jws.isEmpty then []
    else
      let cands := jws.filterMap (fun jd =>
        let sim := _calculate_similarity us jd.skills
        let gap := _analyze_skill_gaps us jd.skills
        if gap.matchingSkills.length < 2 then none
        else some
          { jobId := jd.id
            similarityScore := sim.overall
            jaccardScore := sim.jaccard
            cosineScore := sim.cosine
            weightedScore := sim.weighted
            skillCoverage := (gap.coverage : ℝ)
            matchingSkills := gap.matchingSkills
            missingSkills := gap.missingSkills
            totalJobSkills := jd.skills.length
            totalUserSkills := us.length })
      (sortMatches cands).take limit

/-- A stored `JobMatch` row as read back by `get_job_matches` (nullable
columns are `Option`s; display metadata omitted). -/
structure StoredMatch where
  jobId : ℕ
  similarityScore : Option ℝ
  alignmentScore : Option ℝ
  jaccardScore : Option ℝ
  cosineScore : Option ℝ
  weightedScore : Option ℝ
  skillCoverage : Option ℝ
  matchingSkills : Option (List String)
  matchedSkills : Option (List String)
  missingSkills : Option (List String)

/-- Python `x or default` on a nullable float column. -/
noncomputable def pyOrR (v : Option ℝ) (dflt : ℝ) : ℝ :=
  match v with
  | none => dflt
  | some x => if x = 0 then dflt else x

/-- Python `x or default` on a nullable list column (`[]` is falsy). -/
def pyOrList (v : Option (List String)) (dflt : List String) :
    List String :=
  match v with
  | none => dflt
  | some x => if x = [] then dflt else x

/-- `JobMatchingService.get_job_matches`: read the stored rows (each
paired with the existence of its job posting), coalesce nullable columns
with Python `or`, sort with the same ranking key, truncate. -/
noncomputable def get_job_matches (rows : List (StoredMatch × Bool))
    (userSkillCount : ℕ) (limit : ℕ) : List MatchRec :=
  let result := rows.filterMap (fun rj =>
    if rj.2 then
      let m := rj.1
      let matching := pyOrList m.matchingSkills (pyOrList m.matchedSkills [])
      let missing := pyOrList m.missingSkills []
      some
        { jobId := m.jobId
          similarityScore := pyOrR m.similarityScore (pyOrR m.alignmentScore 0)
          jaccardScore := pyOrR m.jaccardScore 0
          cosineScore := pyOrR m.cosineScore 0
          weightedScore := pyOrR m.weightedScore 0
          skillCoverage := pyOrR m.skillCoverage 0
          matchingSkills := matching
          missingSkills := missing
          totalJobSkills := missing.length + matching.length
          totalUserSkills := userSkillCount }
    else none)
  (sortMatches result).take limit

/-! ### `services/job_matching.py`: dynamic skill gaps -/

/-- Priority assignment of `calculate_skill_gaps_dynamic`:
`importance >= 1.0 → high`, `>= 0.7 → medium`, else `low`. -/
def gapPriority (importance : ℚ) : String :=
  if 1 ≤ importance then "high"
  else if 7/10 ≤ importance then "medium"
  else "low"

/-- One missing-skill gap record (learning-resource/display fields
omitted). -/
structure GapInfo where
  skillId : String
  skillName : String
  skillType : String
  importance : ℚ
  priority : String
deriving DecidableEq

/-- The result of `calculate_skill_gaps_dynamic`. -/
structure GapsDynamic where
  similarityScore : ℝ
  skillCoverage : ℚ
  gaps : List GapInfo
  totalGaps : ℕ
  highPriority : ℕ
  mediumPriority : ℕ
  lowPriority : ℕ

/-- `JobMatchingService.calculate_skill_gaps_dynamic`: the user map comes
from `_get_user_skills`, the job map is keyed by EMSI skill id with
`importance or 1.0`; each missing skill found in the `emsi_skills` catalog
(`catalog : id ↦ (name, type)`) becomes a gap with `gapPriority`. -/
noncomputable def calculate_skill_gaps_dynamic
    (userRows : List (String × ℚ)) (jobRows : List (String × Option ℚ))
    (catalog : String → Option (String × String)) : GapsDynamic :=
  let us := _get_user_skills userRows
  let jdict := jobRows.foldl (fun d p => dset d p.1 (pyOrQ p.2 1)) []
  let userIds := mapKeys us
  let jobIds := mapKeys jdict
  let missing := (jobIds \ userIds).sort (· ≤ ·)
  let gaps := missing.filterMap (fun sid =>
    (catalog sid).map (fun info =>
      let imp := dgetD jdict sid
      GapInfo.mk sid info.1 info.2 imp (gapPriority imp)))
  { similarityScore := (_calculate_similarity us jdict).overall
    skillCoverage := (_analyze_skill_gaps us jdict).coverage
    gaps := gaps
    totalGaps := missing.length
    highPriority := (gaps.filter (fun g => g.priority = "high")).length
    mediumPriority := (gaps.filter (fun g => g.priority = "medium")).length
    lowPriority := (gaps.filter (fun g => g.priority = "low")).length }

/-! ### `services/job_matching.py`: persisting matches

`save_job_matches` runs inside one session transaction: it deletes the
user's prior `JobMatch` rows, adds one row per match and commits; any
exception triggers `db.rollback()` (restoring the pre-call table) and the
method returns 0.  A row is `(user_id, job_id, payload)`; `failAt = some i`
with `i < matches.length` models an exception while adding/flushing match
`i`, `failAt = some matches.length` models a failing commit, anything else
models a clean run. -/

/-- `JobMatchingService.save_job_matches` as a transition on the
`job_matches` table, returning the new table and `saved_count`. -/
def save_job_matches {α : Type} (db : List (ℕ × ℕ × α)) (userId : ℕ)
    (ms : List (ℕ × α)) (failAt : Option ℕ) :
    List (ℕ × ℕ × α) × ℕ :=
  let committed :=
    db.filter (fun r => r.1 ≠ userId) ++
      ms.map (fun m => (userId, m.1, m.2))
  match failAt with
  | some i => if i ≤ ms.length then (db, 0) else (committed, ms.length)
  | none => (committed, ms.length)

/-! ### `services/tfidf_matching.py` -/

/-- `TFIDFJobMatcher._get_skill_variations`: the `skill_mappings` synonym
table, in source order. -/
def skillMappings : List (String × List String) :=
  [("python (programming language)", ["python", "python3", "python2", "py"]),
   ("javascript (programming language)", ["javascript", "js", "ecmascript"]),
   ("javascript", ["js", "ecmascript", "javascript"]),
   ("node.js", ["nodejs", "node", "node js"]),
   ("react.js", ["react", "reactjs"]),
   ("react", ["reactjs", "react.js"]),
   ("typescript", ["ts", "typescript"]),
   ("postgresql", ["postgres", "psql"]),
   ("docker container", ["docker", "containerization"]),
   ("docker", ["containerization", "docker container"]),
   ("git flow", ["git", "version control"]),
   ("git", ["version control", "git flow"]),
   ("aws", ["amazon web services", "amazon aws"]),
   ("css", ["cascading style sheets", "stylesheets"]),
   ("html", ["hypertext markup language", "markup"]),
   ("rest api", ["restful api", "rest", "api"]),
   ("graphql", ["graph ql", "query language"]),
   ("machine learning", ["ml", "artificial intelligence", "ai"]),
   ("artificial intelligence", ["ai", "machine learning", "ml"]),
   ("data science", ["data analysis", "analytics"]),
   ("sql", ["structured query language", "database"]),
   ("nosql", ["non-relational database", "mongodb"]),
   ("mongodb", ["mongo", "nosql"]),
   ("kubernetes", ["k8s", "container orchestration"]),
   ("devops", ["dev ops", "operations"]),
   ("ci/cd", ["continuous integration", "continuous deployment"]),
   ("agile", ["scrum", "agile methodology"]),
   ("scrum", ["agile", "agile methodology"])]

/-- `TFIDFJobMatcher._get_skill_variations`: the name itself, its direct
synonyms, then every table key whose synonym list contains the name, with
duplicates removed (the source materializes a Python set; only membership
is ever consumed downstream). -/
def _get_skill_variations (skillName : String) : List String :=
  let base := [skillName] ++
    (((skillMappings.find? (fun p => p.1 = skillName)).map Prod.snd).getD [])
  let withReverse := skillMappings.foldl
    (fun vs p => if skillName ∈ p.2 ∧ p.1 ∉ vs then vs ++ [p.1] else vs)
    base
  withReverse.dedup

/-- Repetition count `max(1, int(w * 5))`; Python `int()` truncates toward
zero, which on the nonnegative weights in scope is the floor (and for a
negative product both sides are forced to 1 by the outer `max`). -/
def repsOf (w : ℚ) : ℕ :=
  max 1 (⌊w * 5⌋).toNat

/-- The claim's stated repetition count `max(1, round(w * 5))`. -/
def repsOfRounded (w : ℚ) : ℕ :=
  max 1 (round (w * 5)).toNat

/-- Document tokens for one job in
`TFIDFJobMatcher._create_job_skill_documents`: each skill row is
`(resolved SkillV2 name, importance)` (rows whose skill id misses the
catalog are skipped); every variation of the lowered name is repeated
`repsOf (importance or 1.0)` times. -/
def jobDocTokens (rows : List (Option String × Option ℚ)) : List String :=
  rows.flatMap (fun r =>
    match r.1 with
    | none => []
    | some name =>
      let importance := pyOrQ r.2 1
      (_get_skill_variations (pyLower name)).flatMap
        (fun v => List.replicate (repsOf importance) v))

/-- The claim's variant of `jobDocTokens` with `round` in place of `int`
truncation (used to compare against the implemented behaviour). -/
def jobDocTokensRounded (rows : List (Option String × Option ℚ)) :
    List String :=
  rows.flatMap (fun r =>
    match r.1 with
    | none => []
    | some name =>
      let importance := pyOrQ r.2 1
      (_get_skill_variations (pyLower name)).flatMap
        (fun v => List.replicate (repsOfRounded importance) v))

/-- `skill_text = " ".join(skill_names)`. -/
def skillText (tokens : List String) : String :=
  String.intercalate " " tokens

/-- `TFIDFJobMatcher._create_job_skill_documents` over all active jobs. -/
def _create_job_skill_documents
    (jobs : List (ℕ × List (Option String × Option ℚ))) :
    List (ℕ × List String) :=
  jobs.map (fun j => (j.1, jobDocTokens j.2))

/-- Document tokens for the user in `TFIDFJobMatcher._create_user_vector`:
each row is `(resolved SkillV2 name, proficiency_level, confidence)` and
the repetition weight is `proficiency_level * confidence`. -/
def userDocTokens (rows : List (Option String × ℚ × ℚ)) : List String :=
  rows.flatMap (fun r =>
    match r.1 with
    | none => []
    | some name =>
      let weight := r.2.1 * r.2.2
      (_get_skill_variations (pyLower name)).flatMap
        (fun v => List.replicate (repsOf weight) v))

/-- The result of `TFIDFJobMatcher._compute_job_gap_analysis`. -/
structure TGapAnalysis where
  coverage : ℚ
  jaccardScore : ℚ
  weightedScore : ℚ
  matchingSkills : List ℕ
  missingSkills : List ℕ
  totalRequired : ℕ
  totalUserSkills : ℕ
deriving DecidableEq

/-- `TFIDFJobMatcher._compute_job_gap_analysis`: user rows are
`(skill_id, proficiency_level)`, job rows `(skill_id, importance)` with
`importance or 1.0`. -/
def _compute_job_gap_analysis (userRows : List (ℕ × ℚ))
    (jobRows : List (ℕ × Option ℚ)) : TGapAnalysis :=
  let us := userRows.foldl (fun d p => dset d p.1 p.2) []
  let js := jobRows.foldl (fun d p => dset d p.1 (pyOrQ p.2 1)) []
  let ui := (us.map Prod.fst).toFinset
  let ji := (js.map Prod.fst).toFinset
  let matching := (ui ∩ ji).sort (· ≤ ·)
  let missing := (ji \ ui).sort (· ≤ ·)
  let coverage : ℚ :=
    if ji = ∅ then 0 else (matching.length : ℚ) / (ji.card : ℚ)
  let un := ui ∪ ji
  let jaccard : ℚ :=
    if un = ∅ then 0 else (matching.length : ℚ) / (un.card : ℚ)
  let acc := js.foldl
    (fun (a : ℚ × ℚ) p => (a.1 + dgetD us p.1 * p.2, a.2 + p.2)) (0, 0)
  let wsim : ℚ := if 0 < acc.2 then acc.1 / acc.2 else 0
  ⟨coverage, jaccard, wsim, matching, missing, ji.card, ui.card⟩

/-- One candidate of `TFIDFJobMatcher.compute_matches` (display metadata
omitted; `similarity = tfidf = cosine` in the source). -/
structure TfidfMatch where
  jobId : ℕ
  similarityScore : ℚ
  skillCoverage : ℚ
  jaccardScore : ℚ
  weightedScore : ℚ
  matchingSkills : List ℕ
  missingSkills : List ℕ
  totalJobSkills : ℕ
  totalUserSkills : ℕ
deriving DecidableEq

/-- `TFIDFJobMatcher.compute_matches`: the cosine similarities of the
user vector against each job vector in the fitted TF-IDF space are
computed by the external vectorizer (`sklearn`) and supplied here as one
value per job document, in job order.  Jobs with similarity above 0.01
get a full gap analysis, are sorted by similarity descending and
truncated; no minimum matching-skill-count filter is applied on this
path. -/
def compute_matches (userRows : List (ℕ × ℚ))
    (jobs : List (ℕ × List (ℕ × Option ℚ))) (sims : List ℚ) (limit : ℕ) :
    List TfidfMatch :=
  let cands := (jobs.zip sims).filterMap (fun js =>
    if 1/100 < js.2 then
      let gap := _compute_job_gap_analysis userRows js.1.2
      some
        { jobId := js.1.1
          similarityScore := js.2
          skillCoverage := gap.coverage
          jaccardScore := gap.jaccardScore
          weightedScore := gap.weightedScore
          matchingSkills := gap.matchingSkills
          missingSkills := gap.missingSkills
          totalJobSkills := gap.totalRequired
          totalUserSkills := gap.totalUserSkills }
    else none)
  (cands.mergeSort
    (fun a b => decide (b.similarityScore ≤ a.similarityScore))).take limit

/-- One stored `SkillGap` row created by
`TFIDFJobMatcher._create_skill_gaps`. -/
structure SkillGapRow where
  matchId : ℕ
  skillId : ℕ
  gapType : String
  importance : ℚ
  priority : String
deriving DecidableEq

/-- `TFIDFJobMatcher._create_skill_gaps`: for each missing skill present
in the `SkillV2` catalog, a gap row with the hardcoded `importance = 1.0`
run through the `>= 0.8 → high / >= 0.5 → medium / else low` chain (the
job's actual importance is not consulted). -/
def tfidf_create_skill_gaps (matchId : ℕ) (missing : List ℕ)
    (catalogHit : ℕ → Bool) : List SkillGapRow :=
  missing.filterMap (fun sid =>
    if catalogHit sid then
      let importance : ℚ := 1
      let priority :=
        if 8/10 ≤ importance then "high"
        else if 5/10 ≤ importance then "medium"
        else "low"
      some ⟨matchId, sid, "missing", importance, priority⟩
    else none)

/-- `TFIDFJobMatcher.save_matches` as a transition on the
`(job_matches, skill_gaps)` tables: delete the user's prior match rows,
add one match row per match (ids `baseId, baseId+1, …` assigned at
flush) plus its gap rows, commit; any exception rolls the whole
transaction back and the method returns 0.  `failAt` is as in
`save_job_matches`. -/
def tfidf_save_matches (db : List (ℕ × ℕ × ℚ)) (gapsDb : List SkillGapRow)
    (userId : ℕ) (ms : List TfidfMatch) (baseId : ℕ)
    (catalogHit : ℕ → Bool) (failAt : Option ℕ) :
    List (ℕ × ℕ × ℚ) × List SkillGapRow × ℕ :=
  let newRows := ms.map (fun m => (userId, m.jobId, m.similarityScore))
  let newGaps := ms.enum.flatMap (fun p =>
    tfidf_create_skill_gaps (baseId + p.1) p.2.missingSkills catalogHit)
  match failAt with
  | some i =>
    if i ≤ ms.length then (db, gapsDb, 0)
    else (db.filter (fun r => r.1 ≠ userId) ++ newRows, gapsDb ++ newGaps,
          ms.length)
  | none =>
    (db.filter (fun r => r.1 ≠ userId) ++ newRows, gapsDb ++ newGaps,
     ms.length)

/-! ### `services/skill_alignment_service.py` -/

/-- One step of the accumulation loop of
`SkillAlignmentService._calculate_industry_alignment`, accumulating
`(total_score, max_possible_score, matched_skills)`: the denominator
accumulates the raw importance *before* the technical boost; the 1.2
boost enters only a matched skill's numerator contribution. -/
def alignStep (userSkills : List (String × ℚ × ℚ)) (a : ℚ × ℚ × ℕ)
    (it : String × String × ℚ) : ℚ × ℚ × ℕ :=
  let importance := it.2.2
  let mx := a.2.1 + importance
  match dget? userSkills it.1 with
  | some pc =>
    let importance :=
      if is_technical_skill it.2.1 then importance * (12/10)
      else importance
    (a.1 + pc.1 * importance * pc.2, mx, a.2.2 + 1)
  | none => (a.1, mx, a.2.2)

/-- `SkillAlignmentService._calculate_industry_alignment`: user skills
are `(emsi_skill_id, (proficiency, confidence))`, industry skills
`(emsi_skill_id, (skill_name, importance))`. -/
def _calculate_industry_alignment (userSkills : List (String × ℚ × ℚ))
    (industrySkills : List (String × String × ℚ)) : ℚ :=
  let acc := industrySkills.foldl (alignStep userSkills) (0, 0, 0)
  let alignment : ℚ := if 0 < acc.2.1 then acc.1 / acc.2.1 else 0
  let alignment : ℚ :=
    if acc.2.2 < 3 then alignment * ((acc.2.2 : ℚ) / 3) else alignment
  min 1 alignment

/-- The alignment formula exactly as the claim states it: technical
skills get importance ×1.2 *before it enters the denominator sum*, the
numerator multiplies the profile importance, the small-overlap penalty
and the clamp to [0,1] follow. -/
def alignmentClaimFormula (userSkills : List (String × ℚ × ℚ))
    (industrySkills : List (String × String × ℚ)) : ℚ :=
  let den := (industrySkills.map (fun it =>
    if is_technical_skill it.2.1 then it.2.2 * (12/10) else it.2.2)).sum
  let num := (industrySkills.filterMap (fun it =>
    (dget? userSkills it.1).map (fun pc => pc.1 * it.2.2 * pc.2))).sum
  let matched :=
    (industrySkills.filter (fun it => (dget? userSkills it.1).isSome)).length
  let q := num / den
  let q := if matched < 3 then q * ((matched : ℚ) / 3) else q
  min 1 (max 0 q)

/-! ### `services/match_scheduler.py` -/

/-- The statistics accumulated by `MatchScheduler.recompute_all_matches`
(timing fields omitted). -/
structure RunStats where
  totalUsers : ℕ
  processedUsers : ℕ
  failedUsers : ℕ
  totalMatches : ℕ
deriving DecidableEq

/-- The body of the per-user loop of
`MatchScheduler.recompute_all_matches`: a successful user increments
`processed_users` and accumulates the saved count; an exception is caught,
increments `failed_users`, and the loop continues. -/
def recomputeStep (runUser : ℕ → Except String ℕ) (st : RunStats)
    (uid : ℕ) : RunStats :=
  match runUser uid with
  | .ok saved =>
    { st with
      processedUsers := st.processedUsers + 1
      totalMatches := st.totalMatches + saved }
  | .error _ => { st with failedUsers := st.failedUsers + 1 }

/-- `MatchScheduler.recompute_all_matches`: one pass over the users with
skills; `runUser` is the per-user body (invalidate, compute, save) whose
exceptions surface as `Except.error` and are caught by the loop.  The
loop itself never raises. -/
def recompute_all_matches (userIds : List ℕ)
    (runUser : ℕ → Except String ℕ) : RunStats :=
  userIds.foldl (recomputeStep runUser) ⟨userIds.length, 0, 0, 0⟩

/-! ## Shared lemmas -/

lemma dget?_mem {κ ν : Type} [DecidableEq κ] :
    ∀ {d : List (κ × ν)} {k : κ} {v : ν}, dget? d k = some v → (k, v) ∈ d := by
  intro d
  induction d with
  | nil => intro k v h; simp [dget?] at h
  | cons p rest ih =>
    intro k v h
    by_cases hk : p.1 = k
    · simp only [dget?, hk, if_pos] at h
      cases h
      exact List.mem_cons.mpr (Or.inl (Prod.ext hk.symm rfl))
    · simp only [dget?, hk, if_neg, not_false_iff] at h
      exact List.mem_cons_of_mem _ (ih h)

lemma dgetD_nonneg {κ : Type} [DecidableEq κ] {d : List (κ × ℚ)}
    (h : ∀ p ∈ d, 0 ≤ p.2) (k : κ) : 0 ≤ dgetD d k := by
  unfold dgetD
  cases hg : dget? d k with
  | none => simp
  | some v => simpa using h _ (dget?_mem hg)

lemma filter_length_split {α : Type} (p : α → Bool) (l : List α) :
    (l.filter p).length + (l.filter (fun a => !p a)).length = l.length := by
  induction l with
  | nil => simp
  | cons a t ih =>
    by_cases h : p a <;> simp [List.filter_cons, h] <;> omega

/-! ## C8: per-user batch failure isolation -/

/-- The saved-match count contributed by one user (0 for a failed user). -/
def savedOf : Except String ℕ → ℕ
  | .ok n => n
  | .error _ => 0

lemma recompute_foldl (runUser : ℕ → Except String ℕ) (l : List ℕ) :
    ∀ st : RunStats,
      l.foldl (recomputeStep runUser) st =
        ⟨st.totalUsers,
         st.processedUsers + (l.filter (fun u => (runUser u).isOk)).length,
         st.failedUsers + (l.filter (fun u => !(runUser u).isOk)).length,
         st.totalMatches + (l.map (fun u => savedOf (runUser u))).sum⟩ := by
  induction l with
  | nil => intro st; simp
  | cons a t ih =>
    intro st
    simp only [List.foldl_cons, List.filter_cons, List.map_cons,
      List.sum_cons, ih]
    cases h : runUser a with
    | ok n =>
      simp [recomputeStep, h, Except.isOk, Except.toBool, savedOf,
        RunStats.mk.injEq]
      omega
    | error e =>
      simp [recomputeStep, h, Except.isOk, Except.toBool, savedOf,
        RunStats.mk.injEq]
      omega

/-- C8: during a recompute-all batch run, an exception raised while
recomputing any single user's matches is caught, increments the
failed-users counter, and the loop continues with the remaining users
(`processed` counts exactly the non-raising users, `failed` the raising
ones, and they always partition the user list); in particular a batch
over 10 users in which exactly user 4 throws completes without raising
and reports `processed = 9, failed = 1`. -/
theorem C8_batch_isolates_user_failures :
    (∀ (userIds : List ℕ) (runUser : ℕ → Except String ℕ),
      (recompute_all_matches userIds runUser).totalUsers = userIds.length ∧
      (recompute_all_matches userIds runUser).processedUsers =
        (userIds.filter (fun u => (runUser u).isOk)).length ∧
      (recompute_all_matches userIds runUser).failedUsers =
        (userIds.filter (fun u => !(runUser u).isOk)).length ∧
      (recompute_all_matches userIds runUser).processedUsers +
          (recompute_all_matches userIds runUser).failedUsers =
        userIds.length) ∧
    recompute_all_matches [1, 2, 3, 4, 5, 6, 7, 8, 9, 10]
        (fun u => if u = 4 then Except.error "malformed skill store"
                  else Except.ok 1) =
      ⟨10, 9, 1, 9⟩ := by
  constructor
  · intro userIds runUser
    unfold recompute_all_matches
    rw [recompute_foldl]
    refine ⟨rfl, by simp, by simp, ?_⟩
    simpa using filter_length_split (fun u => (runUser u).isOk) userIds
  · decide

/-! ## C10: gap-analysis partition invariants -/

lemma sort_eq_nil_iff {κ : Type} [LinearOrder κ] (s : Finset κ) :
    s.sort (· ≤ ·) = [] ↔ s = ∅ := by
  constructor
  · intro h
    have : (s.sort (· ≤ ·)).length = 0 := by rw [h]; rfl
    rw [Finset.length_sort] at this
    exact Finset.card_eq_zero.mp this
  · intro h; rw [h]; exact Finset.sort_empty _

lemma gap_partition_core {κ : Type} [LinearOrder κ] [DecidableEq κ]
    (ui ji : Finset κ) :
    ((ui ∩ ji).sort (· ≤ ·)).toFinset ∩
        ((ji \ ui).sort (· ≤ ·)).toFinset = ∅ ∧
    ((ui ∩ ji).sort (· ≤ ·)).toFinset ∪
        ((ji \ ui).sort (· ≤ ·)).toFinset = ji ∧
    ((ui ∩ ji).sort (· ≤ ·)).length + ((ji \ ui).sort (· ≤ ·)).length =
      ji.card ∧
    (0 : ℚ) ≤ (if ji = ∅ then 0
      else (((ui ∩ ji).sort (· ≤ ·)).length : ℚ) / (ji.card : ℚ)) ∧
    (if ji = ∅ then 0
      else (((ui ∩ ji).sort (· ≤ ·)).length : ℚ) / (ji.card : ℚ)) ≤ 1 ∧
    (ji ≠ ∅ →
      ((if ji = ∅ then 0
        else (((ui ∩ ji).sort (· ≤ ·)).length : ℚ) / (ji.card : ℚ)) = 1 ↔
        (ji \ ui).sort (· ≤ ·) = [])) := by
  have hlen : ((ui ∩ ji).sort (· ≤ ·)).length = (ui ∩ ji).card :=
    Finset.length_sort _
  have hlen2 : ((ji \ ui).sort (· ≤ ·)).length = (ji \ ui).card :=
    Finset.length_sort _
  refine ⟨?_, ?_, ?_, ?_, ?_, ?_⟩
  · ext s
    simp only [Finset.mem_inter, List.mem_toFinset, Finset.mem_sort,
      Finset.mem_sdiff, Finset.not_mem_empty, iff_false]
    tauto
  · ext s
    simp only [Finset.mem_union, List.mem_toFinset, Finset.mem_sort,
      Finset.mem_inter, Finset.mem_sdiff]
    tauto
  · rw [hlen, hlen2, Finset.inter_comm]
    exact Finset.card_inter_add_card_sdiff ji ui
  · split
    · exact le_refl 0
    · exact div_nonneg (by positivity) (by positivity)
  · split
    · norm_num
    · rename_i hne
      have hsub : (ui ∩ ji).card ≤ ji.card :=
        Finset.card_le_card Finset.inter_subset_right
      rw [hlen]
      apply div_le_one_of_le₀
      · exact_mod_cast hsub
      · positivity
  · intro hne
    rw [if_neg hne, hlen]
    have hcard : (0 : ℚ) < (ji.card : ℚ) := by
      have : 0 < ji.card := Finset.card_pos.mpr (Finset.nonempty_iff_ne_empty.mpr hne)
      exact_mod_cast this
    rw [div_eq_one_iff_eq (ne_of_gt hcard)]
    rw [sort_eq_nil_iff, Finset.sdiff_eq_empty_iff_subset]
    constructor
    · intro h
      have hcards : (ui ∩ ji).card = ji.card := by exact_mod_cast h
      have : ui ∩ ji = ji :=
        Finset.eq_of_subset_of_card_le Finset.inter_subset_right
          (le_of_eq hcards.symm)
      exact Finset.inter_eq_right.mp this
    · intro h
      have : ui ∩ ji = ji := Finset.inter_eq_right.mpr h
      rw [this]

lemma dset_keys {κ ν : Type} [DecidableEq κ] :
    ∀ (d : List (κ × ν)) (k : κ) (v : ν),
      ((dset d k v).map Prod.fst).toFinset =
        insert k ((d.map Prod.fst).toFinset) := by
  intro d
  induction d with
  | nil => intro k v; simp [dset]
  | cons p rest ih =>
    intro k v
    by_cases h : p.1 = k
    · simp only [dset, h, if_pos, List.map_cons, List.toFinset_cons]
      rw [Finset.insert_idem]
    · simp only [dset, h, if_neg, not_false_iff, List.map_cons,
        List.toFinset_cons, ih]
      rw [Finset.Insert.comm]

lemma dict_build_keys {κ τ ν : Type} [DecidableEq κ] (f : κ × τ → ν) :
    ∀ (rows : List (κ × τ)) (d : List (κ × ν)),
      ((rows.foldl (fun d p => dset d p.1 (f p)) d).map Prod.fst).toFinset =
        (d.map Prod.fst).toFinset ∪ (rows.map Prod.fst).toFinset := by
  intro rows
  induction rows with
  | nil => intro d; simp
  | cons p t ih =>
    intro d
    simp only [List.foldl_cons, ih, dset_keys, List.map_cons,
      List.toFinset_cons]
    ext a
    simp only [Finset.mem_union, Finset.mem_insert]
    tauto

/-- C10 (amended): in both gap analyzers the matching and missing lists
are disjoint and partition the job's skill-id set, the totals add up,
coverage is `total_matching / total_required` (0 for an empty job skill
set) and lies in [0,1]; for a *nonempty* job skill set coverage equals 1
exactly when the missing list is empty (for an empty job skill set the
missing list is empty yet coverage is 0). -/
theorem C10_gap_partition_amended :
    (∀ u j : List (String × ℚ),
      (_analyze_skill_gaps u j).matchingSkills.toFinset ∩
          (_analyze_skill_gaps u j).missingSkills.toFinset = ∅ ∧
      (_analyze_skill_gaps u j).matchingSkills.toFinset ∪
          (_analyze_skill_gaps u j).missingSkills.toFinset = mapKeys j ∧
      (_analyze_skill_gaps u j).totalMatching +
          (_analyze_skill_gaps u j).totalMissing =
        (_analyze_skill_gaps u j).totalRequired ∧
      (mapKeys j = ∅ → (_analyze_skill_gaps u j).coverage = 0) ∧
      (mapKeys j ≠ ∅ →
        (_analyze_skill_gaps u j).coverage =
          ((_analyze_skill_gaps u j).totalMatching : ℚ) /
            ((_analyze_skill_gaps u j).totalRequired : ℚ)) ∧
      0 ≤ (_analyze_skill_gaps u j).coverage ∧
      (_analyze_skill_gaps u j).coverage ≤ 1 ∧
      (mapKeys j ≠ ∅ →
        ((_analyze_skill_gaps u j).coverage = 1 ↔
          (_analyze_skill_gaps u j).missingSkills = []))) ∧
    (∀ (userRows : List (ℕ × ℚ)) (jobRows : List (ℕ × Option ℚ)),
      (_compute_job_gap_analysis userRows jobRows).matchingSkills.toFinset ∩
          (_compute_job_gap_analysis userRows jobRows).missingSkills.toFinset
        = ∅ ∧
      (_compute_job_gap_analysis userRows jobRows).matchingSkills.toFinset ∪
          (_compute_job_gap_analysis userRows jobRows).missingSkills.toFinset
        = (jobRows.map Prod.fst).toFinset ∧
      (_compute_job_gap_analysis userRows jobRows).matchingSkills.length +
          (_compute_job_gap_analysis userRows jobRows).missingSkills.length =
        (_compute_job_gap_analysis userRows jobRows).totalRequired ∧
      ((jobRows.map Prod.fst).toFinset = ∅ →
        (_compute_job_gap_analysis userRows jobRows).coverage = 0) ∧
      0 ≤ (_compute_job_gap_analysis userRows jobRows).coverage ∧
      (_compute_job_gap_analysis userRows jobRows).coverage ≤ 1 ∧
      ((jobRows.map Prod.fst).toFinset ≠ ∅ →
        ((_compute_job_gap_analysis userRows jobRows).coverage = 1 ↔
          (_compute_job_gap_analysis userRows jobRows).missingSkills = []))) := by
  constructor
  · intro u j
    obtain ⟨h1, h2, h3, h4, h5, h6⟩ := gap_partition_core (mapKeys u) (mapKeys j)
    simp only [_analyze_skill_gaps]
    refine ⟨h1, h2, h3, ?_, ?_, h4, h5, h6⟩
    · intro he; simp [he]
    · intro he; rw [if_neg he, Finset.length_sort]
  · intro userRows jobRows
    have hkeys :
        ((jobRows.foldl (fun d p => dset d p.1 (pyOrQ p.2 1)) []).map
          Prod.fst).toFinset = (jobRows.map Prod.fst).toFinset := by
      rw [dict_build_keys (fun p => pyOrQ p.2 1) jobRows []]
      simp
    obtain ⟨h1, h2, h3, h4, h5, h6⟩ := gap_partition_core
      (((userRows.foldl (fun d p => dset d p.1 p.2) []).map Prod.fst).toFinset)
      (((jobRows.foldl (fun d p => dset d p.1 (pyOrQ p.2 1)) []).map
        Prod.fst).toFinset)
    simp only [_compute_job_gap_analysis]
    refine ⟨h1, h2.trans hkeys, h3, ?_, h4, h5, ?_⟩
    · intro he
      have hd := hkeys.trans he
      rw [if_pos hd]
    · intro he
      exact h6 (fun hc => he (hkeys ▸ hc))

unseal List.merge List.mergeSort in
/-- C10 counterexample: for an empty job skill set both analyzers return
an empty missing list together with coverage 0, so "coverage equals 1
exactly when missing_skills is empty" fails as stated. -/
theorem C10_counterexample :
    (_analyze_skill_gaps [("python", 1)] []).missingSkills = [] ∧
    (_analyze_skill_gaps [("python", 1)] []).coverage = 0 ∧
    ¬((_analyze_skill_gaps [("python", 1)] []).coverage = 1 ↔
      (_analyze_skill_gaps [("python", 1)] []).missingSkills = []) ∧
    (_compute_job_gap_analysis [(1, 1)] []).missingSkills = [] ∧
    (_compute_job_gap_analysis [(1, 1)] []).coverage = 0 := by
  refine ⟨by decide, by decide, ?_, by decide, by decide⟩
  intro h
  have h1 := h.mpr (by decide)
  have h2 : (_analyze_skill_gaps [("python", 1)] []).coverage = 0 := by decide
  rw [h2] at h1
  norm_num at h1

/-! ## C3: industry alignment -/

/-- The numerator of the alignment quotient as implemented: proficiency ×
(importance, boosted ×1.2 for technical matched skills) × confidence,
summed over the industry skills the user has. -/
def alignNum (userSkills : List (String × ℚ × ℚ))
    (industrySkills : List (String × String × ℚ)) : ℚ :=
  (industrySkills.filterMap (fun it =>
    (dget? userSkills it.1).map (fun pc =>
      pc.1 * (if is_technical_skill it.2.1 then it.2.2 * (12/10) else it.2.2)
        * pc.2))).sum

/-- The denominator of the alignment quotient: the sum of the *unboosted*
importances over all the industry's skills. -/
def alignDen (industrySkills : List (String × String × ℚ)) : ℚ :=
  (industrySkills.map (fun it => it.2.2)).sum

/-- The number of industry skills the user has. -/
def alignMatched (userSkills : List (String × ℚ × ℚ))
    (industrySkills : List (String × String × ℚ)) : ℕ :=
  (industrySkills.filter (fun it => (dget? userSkills it.1).isSome)).length

lemma alignment_foldl (userSkills : List (String × ℚ × ℚ))
    (l : List (String × String × ℚ)) :
    ∀ a : ℚ × ℚ × ℕ,
      l.foldl (alignStep userSkills) a =
        (a.1 + alignNum userSkills l, a.2.1 + alignDen l,
         a.2.2 + alignMatched userSkills l) := by
  induction l with
  | nil =>
    intro a
    simp [alignNum, alignDen, alignMatched]
  | cons it t ih =>
    intro a
    rw [List.foldl_cons, ih]
    have hd : alignDen (it :: t) = it.2.2 + alignDen t := by
      simp [alignDen]
    cases hdg : dget? userSkills it.1 with
    | none =>
      have hs : alignStep userSkills a it = (a.1, a.2.1 + it.2.2, a.2.2) := by
        simp [alignStep, hdg]
      have hn : alignNum userSkills (it :: t) = alignNum userSkills t := by
        simp [alignNum, List.filterMap_cons, hdg]
      have hm : alignMatched userSkills (it :: t) =
          alignMatched userSkills t := by
        simp [alignMatched, List.filter_cons, hdg]
      rw [hs, hn, hd, hm]
      refine Prod.ext rfl (Prod.ext ?_ rfl)
      dsimp only
      ring
    | some pc =>
      have hs : alignStep userSkills a it =
          (a.1 + pc.1 *
            (if is_technical_skill it.2.1 then it.2.2 * (12/10) else it.2.2)
            * pc.2, a.2.1 + it.2.2, a.2.2 + 1) := by
        simp [alignStep, hdg]
      have hn : alignNum userSkills (it :: t) =
          pc.1 *
            (if is_technical_skill it.2.1 then it.2.2 * (12/10) else it.2.2)
            * pc.2 + alignNum userSkills t := by
        simp [alignNum, List.filterMap_cons, hdg]
      have hm : alignMatched userSkills (it :: t) =
          alignMatched userSkills t + 1 := by
        simp [alignMatched, List.filter_cons, hdg]
      rw [hs, hn, hd, hm]
      refine Prod.ext ?_ (Prod.ext ?_ ?_) <;> dsimp only
      · ring
      · ring
      · omega

lemma alignNum_nonneg {userSkills : List (String × ℚ × ℚ)}
    {industrySkills : List (String × String × ℚ)}
    (himp : ∀ it ∈ industrySkills, 0 ≤ it.2.2)
    (huser : ∀ p ∈ userSkills, 0 ≤ p.2.1 ∧ 0 ≤ p.2.2) :
    0 ≤ alignNum userSkills industrySkills := by
  apply List.sum_nonneg
  intro x hx
  obtain ⟨it, hit, hfx⟩ := List.mem_filterMap.mp hx
  cases hdg : dget? userSkills it.1 with
  | none => rw [hdg] at hfx; simp at hfx
  | some pc =>
    rw [hdg] at hfx
    simp only [Option.map_some'] at hfx
    cases hfx
    have hpc := huser _ (dget?_mem hdg)
    have h2 : (0 : ℚ) ≤
        (if is_technical_skill it.2.1 then it.2.2 * (12/10) else it.2.2) := by
      split
      · exact mul_nonneg (himp it hit) (by norm_num)
      · exact himp it hit
    exact mul_nonneg (mul_nonneg hpc.1 h2) hpc.2

/-- C3 (amended): the industry-alignment score equals `min 1 (penalty *
(num / den))` where `num` sums `proficiency × importance × confidence`
over the matched industry skills with the ×1.2 technical boost applied to
the matched skill's importance *in the numerator only*, `den` sums the
unboosted importances over all the industry's skills, and `penalty =
matched/3` when fewer than 3 skills matched; the result lies in [0,1] and
is 0 whenever the user has none of the industry's profiled skills. -/
theorem C3_alignment_amended (userSkills : List (String × ℚ × ℚ))
    (industrySkills : List (String × String × ℚ))
    (himp : ∀ it ∈ industrySkills, 0 ≤ it.2.2)
    (huser : ∀ p ∈ userSkills, 0 ≤ p.2.1 ∧ 0 ≤ p.2.2) :
    _calculate_industry_alignment userSkills industrySkills =
      min 1 ((if alignMatched userSkills industrySkills < 3
        then (alignMatched userSkills industrySkills : ℚ) / 3 else 1) *
        (alignNum userSkills industrySkills / alignDen industrySkills)) ∧
    0 ≤ _calculate_industry_alignment userSkills industrySkills ∧
    _calculate_industry_alignment userSkills industrySkills ≤ 1 ∧
    ((∀ it ∈ industrySkills, dget? userSkills it.1 = none) →
      _calculate_industry_alignment userSkills industrySkills = 0) := by
  have hden : 0 ≤ alignDen industrySkills := by
    apply List.sum_nonneg
    intro x hx
    obtain ⟨it, hit, rfl⟩ := List.mem_map.mp hx
    exact himp it hit
  have hnum := alignNum_nonneg himp huser
  have hmain : _calculate_industry_alignment userSkills industrySkills =
      min 1 ((if alignMatched userSkills industrySkills < 3
        then (alignMatched userSkills industrySkills : ℚ) / 3 else 1) *
        (alignNum userSkills industrySkills / alignDen industrySkills)) := by
    simp only [_calculate_industry_alignment, alignment_foldl, zero_add]
    have h1 : (if 0 < alignDen industrySkills
        then alignNum userSkills industrySkills / alignDen industrySkills
        else 0) =
        alignNum userSkills industrySkills / alignDen industrySkills := by
      split
      · rfl
      · rename_i hne
        have : alignDen industrySkills = 0 := le_antisymm (not_lt.mp hne) hden
        rw [this, div_zero]
    rw [h1]
    split
    · rw [mul_comm]
    · rw [one_mul]
  refine ⟨hmain, ?_, ?_, ?_⟩
  · rw [hmain]
    apply le_min (by norm_num)
    apply mul_nonneg
    · split
      · positivity
      · norm_num
    · exact div_nonneg hnum hden
  · rw [hmain]; exact min_le_left _ _
  · intro hnone
    rw [hmain]
    have h0 : alignNum userSkills industrySkills = 0 := by
      unfold alignNum
      have : industrySkills.filterMap (fun it =>
          (dget? userSkills it.1).map (fun pc =>
            pc.1 * (if is_technical_skill it.2.1 then it.2.2 * (12/10)
              else it.2.2) * pc.2)) = [] := by
        rw [List.filterMap_eq_nil_iff]
        intro it hit
        rw [hnone it hit]
        rfl
      rw [this]
      rfl
    rw [h0, zero_div, mul_zero]
    norm_num

/-- A concrete user skill map for evaluating the alignment theorems. -/
def c3User : List (String × ℚ × ℚ) := [("a", (1, 1))]

/-- A concrete industry profile for evaluating the alignment theorems. -/
def c3Industry : List (String × String × ℚ) := [("a", ("python", 1))]

/-- C3 witness: the amended statement evaluated at one matched technical
industry skill. -/
theorem C3_alignment_amended_witness :
    _calculate_industry_alignment c3User c3Industry =
      min 1 ((if alignMatched c3User c3Industry < 3
        then (alignMatched c3User c3Industry : ℚ) / 3 else 1) *
        (alignNum c3User c3Industry / alignDen c3Industry)) ∧
    0 ≤ _calculate_industry_alignment c3User c3Industry ∧
    _calculate_industry_alignment c3User c3Industry ≤ 1 ∧
    ((∀ it ∈ c3Industry, dget? c3User it.1 = none) →
      _calculate_industry_alignment c3User c3Industry = 0) :=
  C3_alignment_amended c3User c3Industry (by decide) (by decide)

/-- C3 counterexample: for one matched technical industry skill of
importance 1 (proficiency 1, confidence 1) the code returns
`min 1 ((1·1.2·1)/1 · 1/3) = 2/5`, while the claim's formula (boost into
the denominator) yields `min 1 ((1·1·1)/1.2 · 1/3) = 5/18`. -/
theorem C3_counterexample :
    _calculate_industry_alignment [("s1", ((1 : ℚ), 1))]
        [("s1", ("python", (1 : ℚ)))] = 2/5 ∧
    alignmentClaimFormula [("s1", ((1 : ℚ), 1))]
        [("s1", ("python", (1 : ℚ)))] = 5/18 ∧
    ((2 : ℚ)/5 ≠ 5/18) := by
  have ht : is_technical_skill "python" = true := by decide
  refine ⟨?_, ?_, by norm_num⟩
  · unfold _calculate_industry_alignment
    simp only [List.foldl_cons, List.foldl_nil, alignStep, dget?, ht]
    norm_num [min_def]
  · unfold alignmentClaimFormula
    simp only [List.map_cons, List.map_nil, List.filterMap_cons,
      List.filterMap_nil, List.filter_cons, List.filter_nil, dget?, ht]
    norm_num [min_def, max_def]

/-! ## C5: normalization boosts and max-merge -/

lemma dget?_dset_self {κ ν : Type} [DecidableEq κ] :
    ∀ (d : List (κ × ν)) (k : κ) (v : ν), dget? (dset d k v) k = some v := by
  intro d
  induction d with
  | nil => intro k v; simp [dset, dget?]
  | cons p rest ih =>
    intro k v
    by_cases h : p.1 = k
    · simp [dset, h, dget?]
    · simp [dset, h, dget?, ih]

lemma dget?_dset_ne {κ ν : Type} [DecidableEq κ] :
    ∀ (d : List (κ × ν)) (k k2 : κ) (v : ν), k ≠ k2 →
      dget? (dset d k v) k2 = dget? d k2 := by
  intro d
  induction d with
  | nil => intro k k2 v hne; simp [dset, dget?, hne]
  | cons p rest ih =>
    intro k k2 v hne
    by_cases h : p.1 = k
    · have hd : dset (p :: rest) k v = (k, v) :: rest := by simp [dset, h]
      rw [hd]
      simp only [dget?]
      rw [if_neg hne, if_neg (fun hq => hne (h.symm.trans hq))]
    · have hd : dset (p :: rest) k v = p :: dset rest k v := by
        simp [dset, h]
      rw [hd]
      simp only [dget?]
      by_cases h2 : p.1 = k2
      · rw [if_pos h2, if_pos h2]
      · rw [if_neg h2, if_neg h2, ih _ _ _ hne]

/-- The running maximum used by the dict-collision merge: feed a list of
weights into an optional accumulator. -/
def mergeMax : Option ℚ → List ℚ → Option ℚ
  | o, [] => o
  | none, x :: t => mergeMax (some x) t
  | some a, x :: t => mergeMax (some (max a x)) t

lemma mergeMax_some (l : List ℚ) :
    ∀ a : ℚ, mergeMax (some a) l = some (l.foldl max a) := by
  induction l with
  | nil => intro a; rfl
  | cons x t ih => intro a; rw [mergeMax, ih, List.foldl_cons]

lemma mergeMax_none_eq_max? (l : List ℚ) : mergeMax none l = l.max? := by
  cases l with
  | nil => rfl
  | cons x t => rw [mergeMax, mergeMax_some]; rfl

/-- Generic characterization of the dict-building loops of
`_get_user_skills` / `_get_jobs_with_skills`: after the fold, the value
stored at key `n` is the running maximum of all contributions whose row
is valid and normalizes to `n`. -/
lemma foldl_maxmerge_char {ρ : Type} (valid : ρ → Bool) (key : ρ → String)
    (val : ρ → ℚ) (step : List (String × ℚ) → ρ → List (String × ℚ))
    (hstep : ∀ d r, step d r =
      if valid r then
        (match dget? d (key r) with
          | some old => dset d (key r) (max old (val r))
          | none => dset d (key r) (val r))
      else d) :
    ∀ (rows : List ρ) (d : List (String × ℚ)) (n : String),
      dget? (rows.foldl step d) n =
        mergeMax (dget? d n)
          (rows.filterMap
            (fun r => if valid r ∧ key r = n then some (val r) else none)) := by
  intro rows
  induction rows with
  | nil => intro d n; simp [mergeMax]
  | cons r t ih =>
    intro d n
    rw [List.foldl_cons, ih, hstep]
    by_cases hv : valid r
    · by_cases hn : key r = n
      · subst hn
        rw [if_pos hv]
        have hc : (r :: t).filterMap
            (fun x => if valid x ∧ key x = key r then some (val x) else none) =
            val r :: t.filterMap
              (fun x => if valid x ∧ key x = key r then some (val x) else none)
            := by
          rw [List.filterMap_cons]
          simp [hv]
        rw [hc]
        cases hdg : dget? d (key r) with
        | none =>
          rw [mergeMax, dget?_dset_self]
        | some old =>
          rw [mergeMax, dget?_dset_self]
      · have hc : (r :: t).filterMap
            (fun x => if valid x ∧ key x = n then some (val x) else none) =
            t.filterMap
              (fun x => if valid x ∧ key x = n then some (val x) else none)
            := by
          rw [List.filterMap_cons]
          simp [hn]
        rw [hc, if_pos hv]
        cases hdg : dget? d (key r) with
        | none => rw [dget?_dset_ne _ _ _ _ hn]
        | some old => rw [dget?_dset_ne _ _ _ _ hn]
    · rw [if_neg hv]
      have hc : (r :: t).filterMap
          (fun x => if valid x ∧ key x = n then some (val x) else none) =
          t.filterMap
            (fun x => if valid x ∧ key x = n then some (val x) else none) := by
        rw [List.filterMap_cons]
        simp [hv]
      rw [hc]

/-- The boosted user-side weight of one raw skill row: the technical
predicate is applied to the *raw* label, ×1.2 capped at 1.0. -/
def userBoostedWeight (r : String × ℚ) : ℚ :=
  if is_technical_skill r.1 then min 1 (r.2 * (12/10)) else r.2

/-- The boosted job-side importance of one raw skill row (`importance or
1.0`): the technical predicate is applied to the *raw* label, ×1.3 capped
at 2.0. -/
def jobBoostedWeight (r : String × Option ℚ) : ℚ :=
  if is_technical_skill r.1 then min 2 (pyOrQ r.2 1 * (13/10)) else pyOrQ r.2 1

/-- All user-side contributions of the raw rows to normalized key `n`. -/
def userContrib (rows : List (String × ℚ)) (n : String) : List ℚ :=
  rows.filterMap (fun r =>
    if is_valid_skill r.1 ∧ normalize_skill_name r.1 = n then
      some (userBoostedWeight r)
    else none)

/-- All job-side contributions of the raw rows to normalized key `n`. -/
def jobContrib (rows : List (String × Option ℚ)) (n : String) : List ℚ :=
  rows.filterMap (fun r =>
    if is_valid_skill r.1 ∧ normalize_skill_name r.1 = n then
      some (jobBoostedWeight r)
    else none)

lemma userSkillStep_eq (d : List (String × ℚ)) (r : String × ℚ) :
    userSkillStep d r =
      if is_valid_skill r.1 then
        (match dget? d (normalize_skill_name r.1) with
          | some old => dset d (normalize_skill_name r.1)
              (max old (userBoostedWeight r))
          | none => dset d (normalize_skill_name r.1) (userBoostedWeight r))
      else d := by
  by_cases hv : is_valid_skill r.1 <;>
    simp [userSkillStep, userBoostedWeight, hv]

lemma jobSkillStep_eq (d : List (String × ℚ)) (r : String × Option ℚ) :
    jobSkillStep d r =
      if is_valid_skill r.1 then
        (match dget? d (normalize_skill_name r.1) with
          | some old => dset d (normalize_skill_name r.1)
              (max old (jobBoostedWeight r))
          | none => dset d (normalize_skill_name r.1) (jobBoostedWeight r))
      else d := by
  by_cases hv : is_valid_skill r.1 <;>
    simp [jobSkillStep, jobBoostedWeight, hv]

/-- C5 (amended): in both normalizers the weight retained for a
normalized skill id `n` is the maximum of the boosted weights of all
valid raw rows whose label normalizes to `n`, where the boost applies the
technical-skill predicate to the *raw* label (not the canonical name):
user side ×1.2 capped at 1.0, job side ×1.3 capped at 2.0. -/
theorem C5_normalization_boost_and_max_merge :
    (∀ (rows : List (String × ℚ)) (n : String),
      dget? (_get_user_skills rows) n = (userContrib rows n).max?) ∧
    (∀ (rows : List (String × Option ℚ)) (n : String),
      dget? (jobFilteredSkills rows) n = (jobContrib rows n).max?) ∧
    (∀ r : String × ℚ, userBoostedWeight r =
      if is_technical_skill r.1 then min 1 (r.2 * (12/10)) else r.2) ∧
    (∀ r : String × Option ℚ, jobBoostedWeight r =
      if is_technical_skill r.1 then min 2 (pyOrQ r.2 1 * (13/10))
      else pyOrQ r.2 1) := by
  refine ⟨?_, ?_, fun r => rfl, fun r => rfl⟩
  · intro rows n
    unfold _get_user_skills userContrib
    rw [foldl_maxmerge_char (fun r => is_valid_skill r.1)
      (fun r => normalize_skill_name r.1) userBoostedWeight
      userSkillStep userSkillStep_eq rows [] n]
    simp only [dget?]
    rw [mergeMax_none_eq_max?]
  · intro rows n
    unfold jobFilteredSkills jobContrib
    rw [foldl_maxmerge_char (fun r => is_valid_skill r.1)
      (fun r => normalize_skill_name r.1) jobBoostedWeight
      jobSkillStep jobSkillStep_eq rows [] n]
    simp only [dget?]
    rw [mergeMax_none_eq_max?]

/-- C5 counterexample: the raw label `"postgres"` is not matched by the
technical-skill predicate, but its canonical name `"sql"` is; the code
applies the predicate to the raw label and keeps the weight 0.5
unboosted, while the claim (predicate on the canonical name) demands
`min 1 (0.5 × 1.2) = 0.6`. -/
theorem C5_counterexample :
    _get_user_skills [("postgres", 1/2)] = [("sql", 1/2)] ∧
    is_technical_skill "postgres" = false ∧
    normalize_skill_name "postgres" = "sql" ∧
    is_technical_skill (normalize_skill_name "postgres") = true ∧
    min 1 ((1/2 : ℚ) * (12/10)) = 3/5 ∧
    ((1/2 : ℚ) ≠ 3/5) := by
  have h1 : is_valid_skill "postgres" = true := by decide
  have h2 : is_technical_skill "postgres" = false := by decide
  have h3 : normalize_skill_name "postgres" = "sql" := by decide
  refine ⟨?_, h2, h3, by decide, by norm_num, by norm_num⟩
  unfold _get_user_skills
  simp [userSkillStep, h1, h2, h3, dget?, dset]

/-! ## C7: missing-skill priorities -/

/-- The user skill map of the C7 scenario (`{python: 0.8, sql: 0.6}`). -/
def c7User : List (String × ℚ) := [("python", 8/10), ("sql", 6/10)]

/-- The job requirement map of the C7 scenario
(`{python: 1.0, sql: 1.0, aws: 1.0}`). -/
def c7Job : List (String × ℚ) := [("python", 1), ("sql", 1), ("aws", 1)]

/-- C7 (amended): the dynamic gap calculation assigns each missing
skill's priority from its job-side importance with thresholds 1.0 (high)
and 0.7 (medium); in the scenario user `{python: 0.8, sql: 0.6}` against
job `{python: 1, sql: 1, aws: 1}` coverage is 2/3, the single missing
skill is `aws`, and importance 1.0 maps to priority `high`.  The TF-IDF
matcher's stored skill-gap rows, by contrast, use a hardcoded importance
of 1.0 (with thresholds 0.8/0.5), so every stored gap row is `high`
regardless of the job's actual importance. -/
theorem C7_gap_priority_amended :
    (∀ imp : ℚ, (1 ≤ imp → gapPriority imp = "high") ∧
      (7/10 ≤ imp → imp < 1 → gapPriority imp = "medium") ∧
      (imp < 7/10 → gapPriority imp = "low")) ∧
    (∀ (userRows : List (String × ℚ)) (jobRows : List (String × Option ℚ))
      (catalog : String → Option (String × String)),
      ∀ g ∈ (calculate_skill_gaps_dynamic userRows jobRows catalog).gaps,
        g.priority = gapPriority g.importance) ∧
    (_analyze_skill_gaps c7User c7Job).coverage = 2/3 ∧
    (_analyze_skill_gaps c7User c7Job).missingSkills = ["aws"] ∧
    gapPriority 1 = "high" ∧
    (∀ (matchId : ℕ) (missing : List ℕ) (catalogHit : ℕ → Bool),
      ∀ row ∈ tfidf_create_skill_gaps matchId missing catalogHit,
        row.importance = 1 ∧ row.priority = "high") := by
  refine ⟨?_, ?_, ?_, ?_, ?_, ?_⟩
  · intro imp
    refine ⟨?_, ?_, ?_⟩
    · intro h; simp [gapPriority, h]
    · intro h1 h2
      rw [gapPriority, if_neg (by linarith), if_pos h1]
    · intro h
      rw [gapPriority, if_neg (by linarith), if_neg (by linarith)]
  · intro userRows jobRows catalog g hg
    simp only [calculate_skill_gaps_dynamic] at hg
    obtain ⟨sid, hsid, hmap⟩ := List.mem_filterMap.mp hg
    cases hc : catalog sid with
    | none => rw [hc] at hmap; simp at hmap
    | some info =>
      rw [hc] at hmap
      simp only [Option.map_some'] at hmap
      cases hmap
      rfl
  · have hne : mapKeys c7Job ≠ ∅ := by decide
    have hint : (mapKeys c7User ∩ mapKeys c7Job).card = 2 := by decide
    have hcard : (mapKeys c7Job).card = 3 := by decide
    simp only [_analyze_skill_gaps]
    rw [if_neg hne, Finset.length_sort, hint, hcard]
    norm_num
  · have hsd : mapKeys c7Job \ mapKeys c7User = {"aws"} := by decide
    simp only [_analyze_skill_gaps]
    rw [hsd, Finset.sort_singleton]
  · rw [gapPriority, if_pos le_rfl]
  · intro matchId missing catalogHit row hrow
    obtain ⟨sid, hsid, heq⟩ := List.mem_filterMap.mp hrow
    by_cases hch : catalogHit sid
    · rw [if_pos hch] at heq
      cases heq
      refine ⟨rfl, ?_⟩
      dsimp only
      rw [if_pos (by norm_num)]
    · rw [if_neg hch] at heq
      cases heq

/-- C7 counterexample: a job can require a skill with importance 0.5
(which the claim maps to priority `low`), yet the TF-IDF matcher's stored
gap row for that missing skill carries importance 1.0 and priority
`high`. -/
theorem C7_counterexample :
    (_compute_job_gap_analysis [] [(42, some (1/2))]).missingSkills = [42] ∧
    tfidf_create_skill_gaps 1 [42] (fun _ => true) =
      [⟨1, 42, "missing", 1, "high"⟩] ∧
    gapPriority (1/2) = "low" ∧
    ("high" : String) ≠ "low" := by
  refine ⟨?_, ?_, ?_, by decide⟩
  · have hui :
        (((([] : List (ℕ × ℚ)).foldl (fun d p => dset d p.1 p.2) []).map
            Prod.fst).toFinset : Finset ℕ) = ∅ := by decide
    have hji : ((([((42 : ℕ), some ((1 : ℚ)/2))].foldl
        (fun d p => dset d p.1 (pyOrQ p.2 1)) []).map Prod.fst).toFinset :
          Finset ℕ) = {42} := by
      simp [dset]
    simp only [_compute_job_gap_analysis, hui, hji]
    rw [Finset.sdiff_empty, Finset.sort_singleton]
  · simp only [tfidf_create_skill_gaps, List.filterMap_cons,
      List.filterMap_nil, if_pos]
    rw [if_pos (by norm_num : (8 : ℚ)/10 ≤ 1)]
  · rw [gapPriority, if_neg (by norm_num), if_neg (by norm_num)]

/-! ## C6: document construction in the vector-space matcher -/

lemma variations_nodup (s : String) : (_get_skill_variations s).Nodup :=
  List.nodup_dedup _

lemma count_flatMap_replicate (v : String) (reps : ℕ) :
    ∀ vs : List String, vs.Nodup →
      ((vs.flatMap (fun w => List.replicate reps w)).count v) =
        if v ∈ vs then reps else 0 := by
  intro vs
  induction vs with
  | nil => intro h; simp
  | cons w t ih =>
    intro hnd
    obtain ⟨hw, hnd2⟩ := List.nodup_cons.mp hnd
    rw [List.flatMap_cons, List.count_append, ih hnd2]
    by_cases hv : v = w
    · subst hv
      simp [List.count_replicate, hw]
    · rw [List.count_replicate,
        if_neg (by simp only [beq_iff_eq]; exact fun h => hv h.symm)]
      rw [zero_add]
      simp [List.mem_cons, hv]

/-- C6 (amended): in both document builders every variation `v` of a
skill's synonym set contributes exactly `max(1, ⌊weight*5⌋)` copies to
the document (`int()` truncation, not rounding): the total count of a
token `v` in the document is the sum, over the skill rows, of
`repsOf weight` for the rows whose variation set contains `v` (job side:
`weight = importance or 1.0`; user side: `weight = proficiency *
confidence`); and `_create_job_skill_documents` builds exactly one such
document per job. -/
theorem C6_document_repetition_amended :
    (∀ (rows : List (Option String × Option ℚ)) (v : String),
      (jobDocTokens rows).count v =
        (rows.map (fun r =>
          match r.1 with
          | none => 0
          | some name =>
            if v ∈ _get_skill_variations (pyLower name)
            then repsOf (pyOrQ r.2 1) else 0)).sum) ∧
    (∀ (rows : List (Option String × ℚ × ℚ)) (v : String),
      (userDocTokens rows).count v =
        (rows.map (fun r =>
          match r.1 with
          | none => 0
          | some name =>
            if v ∈ _get_skill_variations (pyLower name)
            then repsOf (r.2.1 * r.2.2) else 0)).sum) ∧
    (∀ jobs : List (ℕ × List (Option String × Option ℚ)),
      _create_job_skill_documents jobs =
        jobs.map (fun j => (j.1, jobDocTokens j.2))) := by
  refine ⟨?_, ?_, fun jobs => rfl⟩
  · intro rows v
    rw [jobDocTokens, List.count_flatMap]
    congr 1
    apply List.map_congr_left
    intro r _
    obtain ⟨ro, rimp⟩ := r
    cases ro with
    | none => simp
    | some name =>
      simp only [Function.comp_apply]
      exact count_flatMap_replicate v _ _ (variations_nodup _)
  · intro rows v
    rw [userDocTokens, List.count_flatMap]
    congr 1
    apply List.map_congr_left
    intro r _
    obtain ⟨ro, rw2⟩ := r
    cases ro with
    | none => simp
    | some name =>
      simp only [Function.comp_apply]
      exact count_flatMap_replicate v _ _ (variations_nodup _)

/-- C6 counterexample: a skill with importance 0.3 (`0.3*5 = 1.5`) is
repeated `max(1, int(1.5)) = 1` time by the code, but
`max(1, round(1.5)) = 2` times under the claim's `round`. -/
theorem C6_counterexample :
    jobDocTokens [(some "fortran", some (3/10))] = ["fortran"] ∧
    jobDocTokensRounded [(some "fortran", some (3/10))] =
      ["fortran", "fortran"] ∧
    (["fortran"] : List String) ≠ ["fortran", "fortran"] := by
  have hv : _get_skill_variations (pyLower "fortran") = ["fortran"] := by
    decide
  have hp : pyOrQ (some ((3 : ℚ)/10)) 1 = 3/10 := by
    rw [pyOrQ]
    norm_num
  have hfl : (⌊((3 : ℚ)/10) * 5⌋ : ℤ) = 1 := by
    rw [show ((3 : ℚ)/10) * 5 = 3/2 by norm_num]
    norm_num [Int.floor_eq_iff]
  have hro : (round (((3 : ℚ)/10) * 5) : ℤ) = 2 := by
    rw [show ((3 : ℚ)/10) * 5 = 3/2 by norm_num]
    norm_num [round_eq, Int.floor_eq_iff]
  have hr1 : repsOf (3/10) = 1 := by rw [repsOf, hfl]; rfl
  have hr2 : repsOfRounded (3/10) = 2 := by rw [repsOfRounded, hro]; rfl
  refine ⟨?_, ?_, by decide⟩
  · simp [jobDocTokens, hv, hp, hr1]
  · simp [jobDocTokensRounded, hv, hp, hr2]

/-! ## C9: atomic replace-on-save -/

lemma filterMap_map_sublist {α β γ : Type} (f : α → Option β) (g : β → γ)
    (h : α → γ) (hfg : ∀ a b, f a = some b → g b = h a) :
    ∀ l : List α, ((l.filterMap f).map g).Sublist (l.map h) := by
  intro l
  induction l with
  | nil => simp
  | cons a t ih =>
    rw [List.filterMap_cons, List.map_cons]
    cases hfa : f a with
    | none => exact ih.cons (h a)
    | some b =>
      rw [List.map_cons, hfg a b hfa]
      exact ih.cons₂ (h a)

lemma zip_map_fst_sublist {α β : Type} :
    ∀ (l : List α) (l2 : List β), ((l.zip l2).map Prod.fst).Sublist l := by
  intro l
  induction l with
  | nil => intro l2; simp
  | cons a t ih =>
    intro l2
    cases l2 with
    | nil => simp
    | cons b s =>
      rw [List.zip_cons_cons, List.map_cons]
      exact (ih s).cons₂ a

/-- C9: both save paths delete the user's prior rows and insert the new
ones within one transaction.  A failing step (flush of any match, or the
commit) rolls the whole transaction back — tables unchanged, 0 returned —
so no partial `JobMatch`/`SkillGap` rows remain; a clean run leaves the
user's rows equal to exactly the new matches (other users' rows
untouched) and returns the number inserted.  If the match list carries
distinct job ids — which both compute pipelines guarantee — the table
keeps at most one row per `(user, job)` pair. -/
theorem C9_save_replaces_matches_atomically :
    (∀ {α : Type} (db : List (ℕ × ℕ × α)) (userId : ℕ)
        (ms : List (ℕ × α)) (i : ℕ), i ≤ ms.length →
      save_job_matches db userId ms (some i) = (db, 0)) ∧
    (∀ {α : Type} (db : List (ℕ × ℕ × α)) (userId : ℕ)
        (ms : List (ℕ × α)),
      ((save_job_matches db userId ms none).1.filter
          (fun r => r.1 = userId)) =
        ms.map (fun m => (userId, m.1, m.2)) ∧
      ((save_job_matches db userId ms none).1.filter
          (fun r => r.1 ≠ userId)) =
        db.filter (fun r => r.1 ≠ userId) ∧
      (save_job_matches db userId ms none).2 = ms.length) ∧
    (∀ {α : Type} (db : List (ℕ × ℕ × α)) (userId : ℕ)
        (ms : List (ℕ × α)) (failAt : Option ℕ),
      (ms.map Prod.fst).Nodup →
      (db.map (fun r => (r.1, r.2.1))).Nodup →
      ((save_job_matches db userId ms failAt).1.map
        (fun r => (r.1, r.2.1))).Nodup) ∧
    (∀ (db : List (ℕ × ℕ × ℚ)) (gapsDb : List SkillGapRow) (userId : ℕ)
        (ms : List TfidfMatch) (baseId : ℕ) (catalogHit : ℕ → Bool)
        (i : ℕ), i ≤ ms.length →
      tfidf_save_matches db gapsDb userId ms baseId catalogHit (some i) =
        (db, gapsDb, 0)) ∧
    (∀ (db : List (ℕ × ℕ × ℚ)) (gapsDb : List SkillGapRow) (userId : ℕ)
        (ms : List TfidfMatch) (baseId : ℕ) (catalogHit : ℕ → Bool),
      ((tfidf_save_matches db gapsDb userId ms baseId catalogHit none).1.filter
          (fun r => r.1 = userId)) =
        ms.map (fun m => (userId, m.jobId, m.similarityScore)) ∧
      (tfidf_save_matches db gapsDb userId ms baseId catalogHit none).2.2 =
        ms.length) ∧
    (∀ (userRows : List (String × ℚ))
        (jobs : List (ℕ × List (String × Option ℚ))) (limit : ℕ),
      (jobs.map Prod.fst).Nodup →
      ((match_user_to_jobs userRows jobs limit).map MatchRec.jobId).Nodup) ∧
    (∀ (userRows : List (ℕ × ℚ)) (jobs : List (ℕ × List (ℕ × Option ℚ)))
        (sims : List ℚ) (limit : ℕ),
      (jobs.map Prod.fst).Nodup →
      ((compute_matches userRows jobs sims limit).map
        TfidfMatch.jobId).Nodup) := by
  have hfilters : ∀ {α : Type} (db : List (ℕ × ℕ × α)) (userId : ℕ)
      (ms : List (ℕ × α)),
      ((db.filter (fun r => r.1 ≠ userId) ++
          ms.map (fun m => (userId, m.1, m.2))).filter
        (fun r => r.1 = userId)) =
        ms.map (fun m => (userId, m.1, m.2)) ∧
      ((db.filter (fun r => r.1 ≠ userId) ++
          ms.map (fun m => (userId, m.1, m.2))).filter
        (fun r => r.1 ≠ userId)) = db.filter (fun r => r.1 ≠ userId) := by
    intro α db userId ms
    constructor
    · rw [List.filter_append]
      have h1 : (db.filter (fun r => r.1 ≠ userId)).filter
          (fun r => r.1 = userId) = [] := by
        rw [List.filter_eq_nil_iff]
        intro r hr
        have := (List.mem_filter.mp hr).2
        simp at this ⊢
        exact this
      have h2 : (ms.map (fun m => (userId, m.1, m.2))).filter
          (fun r => r.1 = userId) = ms.map (fun m => (userId, m.1, m.2)) := by
        rw [List.filter_eq_self]
        intro r hr
        obtain ⟨m, hm, rfl⟩ := List.mem_map.mp hr
        simp
      rw [h1, h2, List.nil_append]
    · rw [List.filter_append]
      have h1 : (db.filter (fun r => r.1 ≠ userId)).filter
          (fun r => r.1 ≠ userId) = db.filter (fun r => r.1 ≠ userId) := by
        rw [List.filter_eq_self]
        intro r hr
        exact (List.mem_filter.mp hr).2
      have h2 : (ms.map (fun m => (userId, m.1, m.2))).filter
          (fun r => r.1 ≠ userId) = [] := by
        rw [List.filter_eq_nil_iff]
        intro r hr
        obtain ⟨m, hm, rfl⟩ := List.mem_map.mp hr
        simp
      rw [h1, h2, List.append_nil]
  have hnodup : ∀ {α : Type} (db : List (ℕ × ℕ × α)) (userId : ℕ)
      (ms : List (ℕ × α)),
      (ms.map Prod.fst).Nodup →
      (db.map (fun r => (r.1, r.2.1))).Nodup →
      (((db.filter (fun r => r.1 ≠ userId) ++
          ms.map (fun m => (userId, m.1, m.2))).map
        (fun r => (r.1, r.2.1))).Nodup) := by
    intro α db userId ms hms hdb
    rw [List.map_append, List.nodup_append]
    refine ⟨?_, ?_, ?_⟩
    · exact hdb.sublist ((List.filter_sublist db).map _)
    · rw [List.map_map]
      have : ((fun r : ℕ × ℕ × α => (r.1, r.2.1)) ∘
          (fun m : ℕ × α => (userId, m.1, m.2))) =
          (fun m : ℕ × α => (userId, m.1)) := rfl
      rw [this]
      have hinj : Function.Injective (fun j : ℕ => (userId, j)) :=
        fun a b hab => by cases hab; rfl
      have : (fun m : ℕ × α => (userId, m.1)) =
          (fun j : ℕ => (userId, j)) ∘ Prod.fst := rfl
      rw [this, ← List.map_map]
      exact hms.map hinj
    · rw [List.disjoint_left]
      intro p hp hq
      obtain ⟨r, hr, rfl⟩ := List.mem_map.mp hp
      obtain ⟨x, hx, hpq⟩ := List.mem_map.mp hq
      obtain ⟨m, hm, rfl⟩ := List.mem_map.mp hx
      have heq : userId = r.1 := congrArg Prod.fst hpq
      have hr2 := (List.mem_filter.mp hr).2
      rw [← heq] at hr2
      simp at hr2
  refine ⟨?_, ?_, ?_, ?_, ?_, ?_, ?_⟩
  · intro α db userId ms i hi
    simp [save_job_matches, hi]
  · intro α db userId ms
    exact ⟨(hfilters db userId ms).1, (hfilters db userId ms).2, rfl⟩
  · intro α db userId ms failAt hms hdb
    cases failAt with
    | none => exact hnodup db userId ms hms hdb
    | some i =>
      by_cases hi : i ≤ ms.length
      · simp only [save_job_matches, if_pos hi]
        exact hdb
      · simp only [save_job_matches, if_neg hi]
        exact hnodup db userId ms hms hdb
  · intro db gapsDb userId ms baseId catalogHit i hi
    simp [tfidf_save_matches, hi]
  · intro db gapsDb userId ms baseId catalogHit
    have h := hfilters db userId (ms.map (fun m =>
      (m.jobId, m.similarityScore)))
    have hmm : (ms.map (fun m =>
        (m.jobId, m.similarityScore))).map (fun m => (userId, m.1, m.2)) =
        ms.map (fun m => (userId, m.jobId, m.similarityScore)) := by
      rw [List.map_map]
      rfl
    constructor
    · simp only [tfidf_save_matches]
      rw [← hmm]
      exact h.1
    · rfl
  · intro userRows jobs limit hjobs
    have hjws : ((_get_jobs_with_skills jobs).map JobWithSkills.id).Nodup := by
      unfold _get_jobs_with_skills
      refine List.Nodup.sublist
        (filterMap_map_sublist _ _ Prod.fst ?_ jobs) hjobs
      intro a b hab
      dsimp only at hab
      split at hab
      · cases hab; rfl
      · cases hab
    simp only [match_user_to_jobs]
    split
    · simp
    · split
      · simp
      · refine List.Nodup.sublist ((List.take_sublist _ _).map _) ?_
        unfold sortMatches
        rw [List.Perm.nodup_iff
          ((List.mergeSort_perm _ _).map MatchRec.jobId)]
        refine List.Nodup.sublist
          (filterMap_map_sublist _ _ JobWithSkills.id ?_ _) hjws
        intro a b hab
        split at hab
        · cases hab
        · cases hab; rfl
  · intro userRows jobs sims limit hjobs
    simp only [compute_matches]
    refine List.Nodup.sublist ((List.take_sublist _ _).map _) ?_
    rw [List.Perm.nodup_iff
      ((List.mergeSort_perm _ _).map TfidfMatch.jobId)]
    have h1 : (((jobs.zip sims)).map
        (fun js => js.1.1)).Sublist (jobs.map Prod.fst) := by
      have h2 := (zip_map_fst_sublist jobs sims).map
        (Prod.fst : ℕ × List (ℕ × Option ℚ) → ℕ)
      rw [List.map_map] at h2
      exact h2
    refine List.Nodup.sublist
      (filterMap_map_sublist _ _ (fun js => js.1.1) ?_ _)
      (List.Nodup.sublist h1 hjobs)
    intro a b hab
    split at hab
    · cases hab; rfl
    · cases hab

/-- C7 witness: the three priority bands evaluated at concrete
importances. -/
theorem C7_gap_priority_witness :
    gapPriority 2 = "high" ∧ gapPriority (8/10) = "medium" ∧
    gapPriority 0 = "low" :=
  ⟨(C7_gap_priority_amended.1 2).1 (by norm_num),
   (C7_gap_priority_amended.1 (8/10)).2.1 (by norm_num) (by norm_num),
   (C7_gap_priority_amended.1 0).2.2 (by norm_num)⟩

/-- C9 witness: a rolled-back save leaves the table unchanged and returns
0; a committed save keeps the `(user, job)` pairs duplicate-free. -/
theorem C9_save_witness :
    save_job_matches [(1, 5, 0), (2, 7, 0)] 1 [(8, (0 : ℕ)), (9, 0)]
        (some 1) = ([(1, 5, 0), (2, 7, 0)], 0) ∧
    (((save_job_matches [(1, 5, 0), (2, 7, 0)] 1 [(8, (0 : ℕ)), (9, 0)]
        none).1.map (fun r => (r.1, r.2.1))).Nodup) ∧
    tfidf_save_matches [] [] 1 [] 0 (fun _ => true) (some 0) =
      ([], [], 0) :=
  ⟨C9_save_replaces_matches_atomically.1 [(1, 5, 0), (2, 7, 0)] 1
      [(8, (0 : ℕ)), (9, 0)] 1 (by decide),
   C9_save_replaces_matches_atomically.2.2.1 [(1, 5, 0), (2, 7, 0)] 1
      [(8, (0 : ℕ)), (9, 0)] none (by decide) (by decide),
   C9_save_replaces_matches_atomically.2.2.2.1 [] [] 1 [] 0
      (fun _ => true) 0 (by decide)⟩

/-- C10 witness: the coverage formula evaluated at a nonempty job skill
set. -/
theorem C10_gap_partition_witness :
    (_analyze_skill_gaps [("python", (1 : ℚ))]
        [("python", 1), ("sql", 1)]).coverage =
      ((_analyze_skill_gaps [("python", (1 : ℚ))]
          [("python", 1), ("sql", 1)]).totalMatching : ℚ) /
        ((_analyze_skill_gaps [("python", (1 : ℚ))]
            [("python", 1), ("sql", 1)]).totalRequired : ℚ) :=
  (C10_gap_partition_amended.1 [("python", (1 : ℚ))]
    [("python", 1), ("sql", 1)]).2.2.2.2.1 (by decide)

/-! ## C2: similarity scorer -/

/-- The claim's weighted numerator: `Σ user_weight(s, default 0) *
job_weight(s)` over the job's skills. -/
def wNum (u j : List (String × ℚ)) : ℚ :=
  (j.map (fun p => dgetD u p.1 * p.2)).sum

/-- The claim's weighted denominator: `Σ job_weight(s)` over the job's
skills. -/
def wDen (j : List (String × ℚ)) : ℚ :=
  (j.map (fun p => p.2)).sum

/-- The claim's technical bonus: `Σ 0.5 * user_weight(s) * job_weight(s)`
over the technical job skills the user has with positive weight. -/
def wBonus (u j : List (String × ℚ)) : ℚ :=
  (j.map (fun p =>
    if 0 < dgetD u p.1 ∧ is_technical_skill p.1
    then (1/2) * (dgetD u p.1 * p.2) else 0)).sum

lemma weighted_foldl (u : List (String × ℚ)) (j : List (String × ℚ)) :
    ∀ acc : ℚ × ℚ × ℚ,
      j.foldl (weightedStep u) acc =
        (acc.1 + wNum u j, acc.2.1 + wDen j, acc.2.2 + wBonus u j) := by
  induction j with
  | nil => intro acc; simp [wNum, wDen, wBonus]
  | cons p t ih =>
    intro acc
    rw [List.foldl_cons, ih]
    have hn : wNum u (p :: t) = dgetD u p.1 * p.2 + wNum u t := by
      simp [wNum]
    have hd : wDen (p :: t) = p.2 + wDen t := by simp [wDen]
    have hb : wBonus u (p :: t) =
        (if 0 < dgetD u p.1 ∧ is_technical_skill p.1
          then (1/2) * (dgetD u p.1 * p.2) else 0) + wBonus u t := by
      simp [wBonus]
    rw [hn, hd, hb]
    refine Prod.ext ?_ (Prod.ext ?_ ?_) <;>
      simp only [weightedStep]
    · ring
    · ring
    · by_cases hc : 0 < dgetD u p.1 ∧ is_technical_skill p.1
      · rw [if_pos hc, if_pos hc]; ring
      · rw [if_neg hc, if_neg hc]; ring

lemma wNum_nonneg {u j : List (String × ℚ)} (hu : ∀ p ∈ u, 0 ≤ p.2)
    (hj : ∀ p ∈ j, 0 ≤ p.2) : 0 ≤ wNum u j := by
  apply List.sum_nonneg
  intro x hx
  obtain ⟨p, hp, rfl⟩ := List.mem_map.mp hx
  exact mul_nonneg (dgetD_nonneg hu p.1) (hj p hp)

lemma wDen_nonneg {j : List (String × ℚ)} (hj : ∀ p ∈ j, 0 ≤ p.2) :
    0 ≤ wDen j := by
  apply List.sum_nonneg
  intro x hx
  obtain ⟨p, hp, rfl⟩ := List.mem_map.mp hx
  exact hj p hp

lemma wBonus_nonneg {u j : List (String × ℚ)} (hu : ∀ p ∈ u, 0 ≤ p.2)
    (hj : ∀ p ∈ j, 0 ≤ p.2) : 0 ≤ wBonus u j := by
  apply List.sum_nonneg
  intro x hx
  obtain ⟨p, hp, rfl⟩ := List.mem_map.mp hx
  split
  · have := mul_nonneg (dgetD_nonneg hu p.1) (hj p hp)
    positivity
  · exact le_refl 0

lemma jaccardQ_mem (u j : List (String × ℚ)) :
    0 ≤ jaccardQ u j ∧ jaccardQ u j ≤ 1 := by
  simp only [jaccardQ]
  split
  · exact ⟨le_refl 0, by norm_num⟩
  · rename_i hne
    have hpos : (0 : ℚ) < ((mapKeys u ∪ mapKeys j).card : ℚ) := by
      exact_mod_cast Finset.card_pos.mpr (Finset.nonempty_iff_ne_empty.mpr hne)
    have hsub : (mapKeys u ∩ mapKeys j).card ≤ (mapKeys u ∪ mapKeys j).card
      := Finset.card_le_card Finset.inter_subset_union
    constructor
    · positivity
    · rw [div_le_one hpos]
      exact_mod_cast hsub

lemma cosineSimR_mem (u j : List (String × ℚ)) (hu : ∀ p ∈ u, 0 ≤ p.2)
    (hj : ∀ p ∈ j, 0 ≤ p.2) :
    0 ≤ cosineSimR u j ∧ cosineSimR u j ≤ 1 := by
  simp only [cosineSimR]
  split
  · exact ⟨le_refl 0, by norm_num⟩
  · rename_i hne
    push_neg at hne
    have hnu : (0 : ℝ) <
        Real.sqrt ((∑ s ∈ mapKeys u ∪ mapKeys j, (dgetD u s) ^ 2 : ℚ) : ℝ) :=
      lt_of_le_of_ne (Real.sqrt_nonneg _) (Ne.symm hne.1)
    have hnv : (0 : ℝ) <
        Real.sqrt ((∑ s ∈ mapKeys u ∪ mapKeys j, (dgetD j s) ^ 2 : ℚ) : ℝ) :=
      lt_of_le_of_ne (Real.sqrt_nonneg _) (Ne.symm hne.2)
    have hdq : (0 : ℚ) ≤ ∑ s ∈ mapKeys u ∪ mapKeys j, dgetD u s * dgetD j s :=
      Finset.sum_nonneg (fun s _ =>
        mul_nonneg (dgetD_nonneg hu s) (dgetD_nonneg hj s))
    have haq : (0 : ℚ) ≤ ∑ s ∈ mapKeys u ∪ mapKeys j, (dgetD u s) ^ 2 :=
      Finset.sum_nonneg (fun s _ => sq_nonneg _)
    have hbq : (0 : ℚ) ≤ ∑ s ∈ mapKeys u ∪ mapKeys j, (dgetD j s) ^ 2 :=
      Finset.sum_nonneg (fun s _ => sq_nonneg _)
    have hcs : (∑ s ∈ mapKeys u ∪ mapKeys j, dgetD u s * dgetD j s) ^ 2 ≤
        (∑ s ∈ mapKeys u ∪ mapKeys j, (dgetD u s) ^ 2) *
          ∑ s ∈ mapKeys u ∪ mapKeys j, (dgetD j s) ^ 2 :=
      Finset.sum_mul_sq_le_sq_mul_sq _ _ _
    constructor
    · exact div_nonneg (by exact_mod_cast hdq)
        (mul_nonneg hnu.le hnv.le)
    · rw [div_le_one (mul_pos hnu hnv)]
      rw [← Real.sqrt_mul (by exact_mod_cast haq)]
      rw [Real.le_sqrt (by exact_mod_cast hdq)
        (by exact_mod_cast (mul_nonneg haq hbq))]
      push_cast
      exact_mod_cast hcs

/-- C2: `_calculate_similarity` returns `weighted` equal to the claimed
quotient-plus-bonus (with the denominator-zero case collapsing to 0 and
the clamp at 1.0), `overall = 0.2*jaccard + 0.3*cosine + 0.5*weighted`,
and all four scores lie in [0,1] (for the nonnegative weights produced by
the normalizers). -/
theorem C2_similarity_scorer (u j : List (String × ℚ))
    (hu : ∀ p ∈ u, 0 ≤ p.2) (hj : ∀ p ∈ j, 0 ≤ p.2) :
    (_calculate_similarity u j).weighted =
      ((min 1 (wNum u j / wDen j + wBonus u j / wDen j) : ℚ) : ℝ) ∧
    (_calculate_similarity u j).overall =
      0.2 * (_calculate_similarity u j).jaccard +
        0.3 * (_calculate_similarity u j).cosine +
        0.5 * (_calculate_similarity u j).weighted ∧
    0 ≤ (_calculate_similarity u j).jaccard ∧
    (_calculate_similarity u j).jaccard ≤ 1 ∧
    0 ≤ (_calculate_similarity u j).cosine ∧
    (_calculate_similarity u j).cosine ≤ 1 ∧
    0 ≤ (_calculate_similarity u j).weighted ∧
    (_calculate_similarity u j).weighted ≤ 1 ∧
    0 ≤ (_calculate_similarity u j).overall ∧
    (_calculate_similarity u j).overall ≤ 1 := by
  have hjac := jaccardQ_mem u j
  by_cases hun : mapKeys u ∪ mapKeys j = ∅
  · have hjnil : j = [] := by
      have : mapKeys j = ∅ := by
        have := Finset.union_eq_empty.mp hun
        exact this.2
      exact (List.toFinset_eq_empty_iff _).mp
        (by simpa [mapKeys] using this)
    subst hjnil
    have hz : _calculate_similarity u [] = ⟨0, 0, 0, 0⟩ := by
      simp only [_calculate_similarity]
      rw [if_pos hun]
    rw [hz]
    have hw : wNum u [] = 0 := rfl
    have hd : wDen [] = 0 := rfl
    have hb : wBonus u [] = 0 := rfl
    refine ⟨?_, by norm_num, by norm_num, by norm_num, by norm_num,
      by norm_num, by norm_num, by norm_num, by norm_num, by norm_num⟩
    rw [hw, hd, hb]
    norm_num
  · have hcos := cosineSimR_mem u j hu hj
    have hwnum := wNum_nonneg hu hj
    have hwden := wDen_nonneg hj
    have hwbon := wBonus_nonneg hu hj
    have hwq : (if 0 < wDen j
        then (if 0 < wDen j then wNum u j / wDen j else 0) +
          wBonus u j / wDen j
        else (0 : ℚ)) = wNum u j / wDen j + wBonus u j / wDen j := by
      by_cases hpos : 0 < wDen j
      · rw [if_pos hpos, if_pos hpos]
      · have h0 : wDen j = 0 := le_antisymm (not_lt.mp hpos) hwden
        rw [if_neg hpos, h0, div_zero, div_zero, add_zero]
    have hmain : _calculate_similarity u j =
        ⟨(jaccardQ u j : ℝ) * (2/10) + cosineSimR u j * (3/10) +
            ((min 1 (wNum u j / wDen j + wBonus u j / wDen j) : ℚ) : ℝ)
              * (5/10),
          (jaccardQ u j : ℝ), cosineSimR u j,
          ((min 1 (wNum u j / wDen j + wBonus u j / wDen j) : ℚ) : ℝ)⟩ := by
      simp only [_calculate_similarity, weighted_foldl, zero_add]
      rw [if_neg hun]
      by_cases hpos : 0 < wDen j
      · simp only [if_pos hpos]
      · have h0 : wDen j = 0 := le_antisymm (not_lt.mp hpos) hwden
        simp only [if_neg hpos, h0, div_zero, add_zero]
        norm_num [min_def]
    rw [hmain]
    dsimp only
    have hwmem : (0 : ℚ) ≤
        min 1 (wNum u j / wDen j + wBonus u j / wDen j) ∧
        min 1 (wNum u j / wDen j + wBonus u j / wDen j) ≤ 1 := by
      constructor
      · exact le_min (by norm_num)
          (add_nonneg (div_nonneg hwnum hwden) (div_nonneg hwbon hwden))
      · exact min_le_left _ _
    refine ⟨rfl, by push_cast; ring, ?_, ?_, hcos.1, hcos.2, ?_, ?_, ?_, ?_⟩
    · exact_mod_cast hjac.1
    · exact_mod_cast hjac.2
    · exact_mod_cast hwmem.1
    · exact_mod_cast hwmem.2
    · have h1 : (0 : ℝ) ≤ (jaccardQ u j : ℝ) := by exact_mod_cast hjac.1
      have h2 : (0 : ℝ) ≤
          ((min 1 (wNum u j / wDen j + wBonus u j / wDen j) : ℚ) : ℝ) := by
        exact_mod_cast hwmem.1
      nlinarith [hcos.1]
    · have h1 : ((jaccardQ u j : ℚ) : ℝ) ≤ 1 := by exact_mod_cast hjac.2
      have h2 : ((min 1 (wNum u j / wDen j + wBonus u j / wDen j) : ℚ) : ℝ)
          ≤ 1 := by exact_mod_cast hwmem.2
      nlinarith [hcos.2]

/-- C2 witness: the scorer evaluated at the single shared technical skill
`python` with weight 1 on both sides. -/
theorem C2_similarity_scorer_witness :
    (_calculate_similarity [("python", 1)] [("python", 1)]).weighted =
      ((min 1 (wNum [("python", 1)] [("python", 1)] /
          wDen [("python", 1)] +
        wBonus [("python", 1)] [("python", 1)] /
          wDen [("python", 1)]) : ℚ) : ℝ) ∧
    (_calculate_similarity [("python", 1)] [("python", 1)]).overall =
      0.2 * (_calculate_similarity [("python", 1)] [("python", 1)]).jaccard +
        0.3 * (_calculate_similarity [("python", 1)] [("python", 1)]).cosine +
        0.5 * (_calculate_similarity [("python", 1)]
          [("python", 1)]).weighted ∧
    0 ≤ (_calculate_similarity [("python", 1)] [("python", 1)]).jaccard ∧
    (_calculate_similarity [("python", 1)] [("python", 1)]).jaccard ≤ 1 ∧
    0 ≤ (_calculate_similarity [("python", 1)] [("python", 1)]).cosine ∧
    (_calculate_similarity [("python", 1)] [("python", 1)]).cosine ≤ 1 ∧
    0 ≤ (_calculate_similarity [("python", 1)] [("python", 1)]).weighted ∧
    (_calculate_similarity [("python", 1)] [("python", 1)]).weighted ≤ 1 ∧
    0 ≤ (_calculate_similarity [("python", 1)] [("python", 1)]).overall ∧
    (_calculate_similarity [("python", 1)] [("python", 1)]).overall ≤ 1 :=
  C2_similarity_scorer [("python", 1)] [("python", 1)]
    (by decide) (by decide)

/-! ## C1: match ranking order -/

lemma sortKey_le_trans (a b c : MatchRec)
    (h1 : decide (sortKey b ≤ sortKey a) = true)
    (h2 : decide (sortKey c ≤ sortKey b) = true) :
    decide (sortKey c ≤ sortKey a) = true := by
  simp only [decide_eq_true_eq] at h1 h2 ⊢
  exact le_trans h2 h1

lemma sortMatches_sorted (l : List MatchRec) :
    (sortMatches l).Sorted (fun a b => sortKey b ≤ sortKey a) := by
  have h := List.sorted_mergeSort
    (fun a b c : MatchRec => sortKey_le_trans a b c)
    (fun a b : MatchRec => by
      simp only [Bool.or_eq_true, decide_eq_true_eq]
      exact le_total (sortKey b) (sortKey a)) l
  unfold sortMatches
  exact List.Pairwise.imp (fun hab => of_decide_eq_true hab) h

lemma perm_pair_cases {α : Type} {a b : α} {l : List α} (hne : a ≠ b)
    (h : l.Perm [a, b]) : l = [a, b] ∨ l = [b, a] := by
  classical
  obtain ⟨x, y, rfl⟩ := List.length_eq_two.mp (by simpa using h.length_eq)
  have hx : x ∈ [a, b] := h.subset (List.mem_cons_self x [y])
  have hca : List.count a [x, y] = 1 := by
    rw [h.count_eq a]
    simp [List.count_cons, Ne.symm hne]
  have hcb : List.count b [x, y] = 1 := by
    rw [h.count_eq b]
    simp [List.count_cons, hne]
  rcases List.mem_pair.mp hx with rfl | rfl
  · left
    have hyb : y = b := by
      by_contra hyb
      simp [List.count_cons, hne, hyb] at hcb
    rw [hyb]
  · right
    have hya : y = a := by
      by_contra hya
      simp [List.count_cons, Ne.symm hne, hya] at hca
    rw [hya]

/-- C1: the ranked lists returned by `match_user_to_jobs` and
`get_job_matches` are sorted in descending lexicographic order of the key
`(matching-skill count, overall score, job-skill count, -user-skill
count)`; that key comparison is trichotomous, transitive and irreflexive
(a strict total order over candidates); and a candidate with 3 matching
skills and overall score 0.5 has a strictly larger key than one with 2
matching skills and score 0.9, so the sort places it first. -/
theorem C1_match_ranking_order :
    (∀ (userRows : List (String × ℚ))
        (jobs : List (ℕ × List (String × Option ℚ))) (limit : ℕ),
      (match_user_to_jobs userRows jobs limit).Sorted
        (fun a b => sortKey b ≤ sortKey a)) ∧
    (∀ (rows : List (StoredMatch × Bool)) (cnt limit : ℕ),
      (get_job_matches rows cnt limit).Sorted
        (fun a b => sortKey b ≤ sortKey a)) ∧
    (∀ a b : MatchRec,
      sortKey a < sortKey b ∨ sortKey a = sortKey b ∨ sortKey b < sortKey a) ∧
    (∀ a b c : MatchRec,
      sortKey a < sortKey b → sortKey b < sortKey c → sortKey a < sortKey c) ∧
    (∀ a : MatchRec, ¬ sortKey a < sortKey a) ∧
    (∀ m1 m2 : MatchRec,
      m1.matchingSkills.length = 3 → m1.similarityScore = 0.5 →
      m2.matchingSkills.length = 2 → m2.similarityScore = 0.9 →
      sortKey m2 < sortKey m1 ∧ sortMatches [m2, m1] = [m1, m2]) := by
  refine ⟨?_, ?_, ?_, ?_, ?_, ?_⟩
  · intro userRows jobs limit
    simp only [match_user_to_jobs]
    split
    · exact List.sorted_nil
    · split
      · exact List.sorted_nil
      · exact List.Pairwise.sublist (List.take_sublist _ _)
          (sortMatches_sorted _)
  · intro rows cnt limit
    simp only [get_job_matches]
    exact List.Pairwise.sublist (List.take_sublist _ _)
      (sortMatches_sorted _)
  · intro a b
    exact lt_trichotomy _ _
  · intro a b c h1 h2
    exact lt_trans h1 h2
  · intro a
    exact lt_irrefl _
  · intro m1 m2 h1len h1s h2len h2s
    have hkey : sortKey m2 < sortKey m1 := by
      unfold sortKey
      rw [h1len, h2len, Prod.Lex.lt_iff]
      left
      show (2 : ℕ) < 3
      decide
    refine ⟨hkey, ?_⟩
    have hne : m2 ≠ m1 := by
      intro he
      rw [he, h1len] at h2len
      exact absurd h2len (by norm_num)
    have hperm : (sortMatches [m2, m1]).Perm [m2, m1] :=
      List.mergeSort_perm _ _
    rcases perm_pair_cases hne hperm with he | he
    · exfalso
      have hs := sortMatches_sorted [m2, m1]
      rw [he] at hs
      have hle : sortKey m1 ≤ sortKey m2 :=
        (List.sorted_cons.mp hs).1 m1 (List.mem_singleton_self m1)
      exact absurd hle (not_le.mpr hkey)
    · exact he

/-- Concrete C1 candidates: three matching skills at overall score 0.5
versus two matching skills at overall score 0.9. -/
noncomputable def c1rec1 : MatchRec :=
  ⟨1, 0.5, 0, 0, 0, 0, ["a", "b", "c"], [], 3, 1⟩

/-- The competing C1 candidate with the higher score but fewer matches. -/
noncomputable def c1rec2 : MatchRec :=
  ⟨2, 0.9, 0, 0, 0, 0, ["a", "b"], [], 2, 1⟩

/-- C1 witness: the 3-matching-skill candidate outranks the higher-scoring
2-matching-skill candidate and the sort places it first. -/
theorem C1_match_ranking_order_witness :
    sortKey c1rec2 < sortKey c1rec1 ∧
      sortMatches [c1rec2, c1rec1] = [c1rec1, c1rec2] :=
  C1_match_ranking_order.2.2.2.2.2 c1rec1 c1rec2 rfl rfl rfl rfl

/-! ## C4: two-matching-skill floor -/

/-- The C4 scenario user: a single valid technical skill. -/
def c4User : List (String × ℚ) := [("python", 1)]

/-- The C4 scenario job rows: five valid skills, exactly one shared with
the user. -/
def c4JobRows : List (String × Option ℚ) :=
  [("python", some 1), ("java", some 1), ("linux", some 1),
   ("docker", some 1), ("excel", some 1)]

/-- The gap analysis of the one-matching-skill TF-IDF pair. -/
def c4Gap : TGapAnalysis := _compute_job_gap_analysis [(1, 1)] [(1, some 1)]

/-- The single TF-IDF candidate the one-matching-skill run retains. -/
def c4TfidfMatch : TfidfMatch :=
  ⟨10, 1/2, c4Gap.coverage, c4Gap.jaccardScore, c4Gap.weightedScore,
    c4Gap.matchingSkills, c4Gap.missingSkills, c4Gap.totalRequired,
    c4Gap.totalUserSkills⟩

lemma mergeSort_singleton_eq {α : Type} (a : α) (le : α → α → Bool) :
    List.mergeSort [a] le = [a] :=
  List.perm_singleton.mp (List.mergeSort_perm [a] le)

lemma c4_tfidf_out :
    compute_matches [(1, 1)] [(10, [(1, some 1)])] [1/2] 50 =
      [c4TfidfMatch] := by
  have hgt : (1 : ℚ)/100 < 1/2 := by norm_num
  simp only [compute_matches, List.zip_cons_cons, List.zip_nil_right,
    List.filterMap_cons, List.filterMap_nil, if_pos hgt,
    mergeSort_singleton_eq, c4TfidfMatch, c4Gap]
  rfl

unseal List.merge List.mergeSort in
/-- C4 (amended): the pairwise matcher keeps only candidates with at
least 2 matching skill ids, and in the 1-of-5 scenario returns no match
even though the pair's coverage is positive (1 of 5 required skills); the
TF-IDF matcher applies no such floor — its only filter keeps candidates
with cosine similarity above 0.01. -/
theorem C4_two_matching_floor_amended :
    (∀ (userRows : List (String × ℚ))
        (jobs : List (ℕ × List (String × Option ℚ))) (limit : ℕ),
      ∀ m ∈ match_user_to_jobs userRows jobs limit,
        2 ≤ m.matchingSkills.length) ∧
    (∀ (userRows : List (ℕ × ℚ)) (jobs : List (ℕ × List (ℕ × Option ℚ)))
        (sims : List ℚ) (limit : ℕ),
      ∀ m ∈ compute_matches userRows jobs sims limit,
        1/100 < m.similarityScore) ∧
    match_user_to_jobs c4User [(1, c4JobRows)] 50 = [] ∧
    (_analyze_skill_gaps (_get_user_skills c4User)
        (jobFilteredSkills c4JobRows)).totalMatching = 1 ∧
    (_analyze_skill_gaps (_get_user_skills c4User)
        (jobFilteredSkills c4JobRows)).totalRequired = 5 ∧
    0 < (_analyze_skill_gaps (_get_user_skills c4User)
        (jobFilteredSkills c4JobRows)).coverage := by
  refine ⟨?_, ?_, ?_, by decide, by decide, ?_⟩
  · intro userRows jobs limit m hm
    simp only [match_user_to_jobs] at hm
    split at hm
    · exact absurd hm (List.not_mem_nil m)
    · split at hm
      · exact absurd hm (List.not_mem_nil m)
      · unfold sortMatches at hm
        have h2 := (List.mergeSort_perm _ _).mem_iff.mp
          (List.mem_of_mem_take hm)
        obtain ⟨jd, hjd, hf⟩ := List.mem_filterMap.mp h2
        split at hf
        · exact Option.noConfusion hf
        · rename_i hc
          obtain rfl := Option.some.inj hf
          exact not_lt.mp hc
  · intro userRows jobs sims limit m hm
    simp only [compute_matches] at hm
    have h2 := (List.mergeSort_perm _ _).mem_iff.mp
      (List.mem_of_mem_take hm)
    obtain ⟨js, hjs, hf⟩ := List.mem_filterMap.mp h2
    split at hf
    · rename_i hgt
      obtain rfl := Option.some.inj hf
      exact hgt
    · exact Option.noConfusion hf
  · have hjws : _get_jobs_with_skills [(1, c4JobRows)] =
        [⟨1, jobFilteredSkills c4JobRows⟩] := rfl
    have hlt : (_analyze_skill_gaps (_get_user_skills c4User)
        (jobFilteredSkills c4JobRows)).matchingSkills.length < 2 := by decide
    simp only [match_user_to_jobs]
    rw [if_neg (by decide : ¬((_get_user_skills c4User).isEmpty = true))]
    rw [hjws]
    rw [if_neg (by decide :
      ¬(([⟨1, jobFilteredSkills c4JobRows⟩] :
          List JobWithSkills).isEmpty = true))]
    simp only [List.filterMap_cons, List.filterMap_nil, if_pos hlt,
      sortMatches, List.mergeSort_nil, List.take_nil]
  · have hjne : ¬(mapKeys (jobFilteredSkills c4JobRows) = ∅) := by decide
    have hclen : ((mapKeys (_get_user_skills c4User) ∩
        mapKeys (jobFilteredSkills c4JobRows)).sort (· ≤ ·)).length = 1 := by
      decide
    have hjcard : (mapKeys (jobFilteredSkills c4JobRows)).card = 5 := by
      decide
    simp only [_analyze_skill_gaps]
    rw [if_neg hjne, hclen, hjcard]
    norm_num

unseal List.merge List.mergeSort in
/-- C4 counterexample: the TF-IDF matcher's final output retains a
(user, job) pair whose skill sets overlap in exactly one skill id. -/
theorem C4_counterexample :
    ∃ m ∈ compute_matches [(1, 1)] [(10, [(1, some 1)])] [1/2] 50,
      m.matchingSkills.length < 2 ∧ m.matchingSkills = [1] := by
  rw [c4_tfidf_out]
  refine ⟨c4TfidfMatch, List.mem_singleton_self _, ?_, ?_⟩
  · decide
  · decide

/-- C4 witness: the TF-IDF similarity floor evaluated at the retained
one-matching-skill candidate. -/
theorem C4_two_matching_floor_witness :
    (1 : ℚ)/100 < c4TfidfMatch.similarityScore :=
  C4_two_matching_floor_amended.2.1 [(1, 1)] [(10, [(1, some 1)])] [1/2] 50
    c4TfidfMatch (by rw [c4_tfidf_out]; exact List.mem_singleton_self _)
